import Mathlib

/-!
Verification development for the glisp repository.

Namespace GV embeds the value model of packages/lang/src/val/val.ts
(the class hierarchy Value = All | Never | Unit | Prim | PrimType |
Enum | EnumType | TypeVar | Fn | FnType | Vec | Dict | Struct |
StructType | UnionType with its methods isEqualTo / isSubtypeOf /
isType / defaultValue / isInstance).

Namespace G8 embeds src/experiments/08_syntaxdev/glisp.ts
(uniteType, compareType / isSubtypeOf, castType, castExpParam and the
fragment of the evaluator these exercise).

Namespace P0 embeds the evaluator of the unnamed source file
src/unnamed/part_000 (evalExp / evalWithTrace with its visitation
trace, memoization slots and symbol resolution over parent links).

Object identity (the TS operator on class instances) is modelled by
numeric id tags where the source compares by identity (Fn values) and
by structural equality where the source compares structurally; heap
mutation in P0 is modelled by an explicit store indexed by node ids.
-/

namespace GV

/-- Payload of a primitive value (Prim.value in val.ts). The host
literals used by the code are numbers and strings; numbers are
modelled as integers, which is sufficient for every claim. -/
inductive PrimData where
  | num (n : Int)
  | str (s : String)
deriving DecidableEq, Repr

/-- TypeVar from val.ts: a name together with the optional original
TypeVar recorded by shadow (TypeVar.original). -/
inductive TypeVarT where
  | mk (name : String) (original : Option TypeVarT)

/-- name field of a TypeVar. -/
def TypeVarT.name : TypeVarT → String
  | .mk n _ => n

/-- original field of a TypeVar. -/
def TypeVarT.original : TypeVarT → Option TypeVarT
  | .mk _ o => o

/-- Structural equality of TypeVars, modelling object identity. -/
def TypeVarT.beq : TypeVarT → TypeVarT → Bool
  | .mk n1 none, .mk n2 none => n1 == n2
  | .mk n1 (some o1), .mk n2 (some o2) => n1 == n2 && TypeVarT.beq o1 o2
  | _, _ => false

instance : BEq TypeVarT := ⟨TypeVarT.beq⟩

/-- TypeVar.shadow: returns a fresh TypeVar with the same name whose
original field points back at the receiver. -/
def TypeVarT.shadow (t : TypeVarT) : TypeVarT :=
  .mk t.name (some t)

/-- TypeVar.unshadow: this.original ?? this. -/
def TypeVarT.unshadow : TypeVarT → TypeVarT
  | .mk n none => .mk n none
  | .mk _ (some o) => o

/-- The Value hierarchy of val.ts.  A Prim carries the name and the
default payload of its owning PrimType (its superType); an Enum
carries the name and label list of its owning EnumType; a Fn carries
an id modelling object identity (Fn.isEqualTo compares by identity)
plus the components of its FnType superType; Struct carries the name
and parameter list of its StructType.  Record-typed fields
(param / items of FnType, Dict, StructType) are ordered key-value
lists, mirroring a TS object literal. -/
inductive Value where
  | all
  | never
  | unit
  | prim (tyName : String) (tyDefault : PrimData) (value : PrimData)
  | primType (name : String) (dflt : PrimData)
  | enumV (label : String) (tyName : String) (labels : List String)
  | enumType (name : String) (labels : List String)
  | typeVar (tv : TypeVarT)
  | fn (id : Nat) (param : List (String × Value)) (optionalPos : Nat)
      (rest : Option (Option String × Value)) (out : Value)
  | fnType (param : List (String × Value)) (optionalPos : Nat)
      (rest : Option (Option String × Value)) (out : Value)
  | vec (items : List Value) (optionalPos : Nat) (rest : Option Value)
  | dict (items : List (String × Value)) (optionalKeys : List String)
      (rest : Option Value)
  | struct (tyName : String) (tyParam : List (String × Value)) (items : List Value)
  | structType (name : String) (param : List (String × Value))
  | unionType (types : List Value)

mutual

/-- Size measure driving the termination of isSubtypeOf / isEqualTo.
Only the relative sizes matter: every class is strictly larger than
its superType, and composites dominate their components. -/
def sz : Value → Nat
  | .all => 1
  | .never => 3
  | .unit => 3
  | .prim _ _ _ => 5
  | .primType _ _ => 3
  | .enumV _ _ _ => 5
  | .enumType _ _ => 3
  | .typeVar _ => 3
  | .fn _ p _ r out => 4 + szP p + szRO r + sz out
  | .fnType p _ r out => 2 + szP p + szRO r + sz out
  | .vec items _ rest => 1 + szL items + szO rest
  | .dict items _ rest => 1 + 2 * szP items + szO rest
  | .struct _ par items => 5 + szP par + szL items
  | .structType _ par => 3 + szP par
  | .unionType ts => 2 + szL ts

/-- Size of a list of values. -/
def szL : List Value → Nat
  | [] => 0
  | v :: vs => 1 + sz v + szL vs

/-- Size of an ordered record (key-value list). -/
def szP : List (String × Value) → Nat
  | [] => 0
  | (_, v) :: ps => 1 + sz v + szP ps

/-- Size of an optional value. -/
def szO : Option Value → Nat
  | none => 1
  | some v => 1 + sz v

/-- Size of an optional named rest parameter. -/
def szRO : Option (Option String × Value) → Nat
  | none => 1
  | some (_, v) => 1 + sz v

end

theorem szL_append (a b : List Value) : szL (a ++ b) = szL a + szL b := by
  induction a with
  | nil => simp [szL]
  | cons x xs ih => simp [szL, ih]; omega

theorem sz_pos (v : Value) : 1 ≤ sz v := by
  cases v <;> simp [sz] <;> omega

theorem szL_mem_lt {v : Value} {l : List Value} (h : v ∈ l) : sz v < 1 + szL l := by
  induction l with
  | nil => cases h
  | cons x xs ih =>
    rcases List.mem_cons.mp h with h | h
    · subst h; simp [szL]; omega
    · have := ih h; simp [szL]; omega

theorem szP_lookup_lt {k : String} {ps : List (String × Value)} {v : Value}
    (h : ps.lookup k = some v) : sz v < szP ps := by
  induction ps with
  | nil => simp [List.lookup] at h
  | cons p ps ih =>
    obtain ⟨k', v'⟩ := p
    simp [List.lookup] at h
    by_cases hk : k == k'
    · simp [hk] at h
      subst h
      simp [szP]; omega
    · simp [hk] at h
      have := ih h
      simp [szP]; omega

theorem pairsLen_le (ps : List (String × Value)) : ps.length ≤ szP ps := by
  induction ps with
  | nil => simp
  | cons p ps ih =>
    obtain ⟨k, v⟩ := p
    have := sz_pos v
    simp [szP]
    omega

theorem szL_drop_le (n : Nat) (l : List Value) : szL (l.drop n) ≤ szL l := by
  induction l generalizing n with
  | nil => simp
  | cons x xs ih =>
    cases n with
    | zero => simp
    | succ m =>
      have := ih m
      simp [List.drop, szL]
      omega

theorem szL_take_le (n : Nat) (l : List Value) : szL (l.take n) ≤ szL l := by
  induction l generalizing n with
  | nil => simp
  | cons x xs ih =>
    cases n with
    | zero => simp [szL]
    | succ m =>
      have := ih m
      simp [List.take, szL]
      omega

/-- lodash values() of a record: the list of its values in order. -/
def pvals (p : List (String × Value)) : List Value := p.map Prod.snd

theorem szL_pvals (p : List (String × Value)) : szL (pvals p) = szP p := by
  induction p with
  | nil => simp [pvals, szL, szP]
  | cons kv ps ih =>
    obtain ⟨k, v⟩ := kv
    simp [pvals, szL, szP] at *
    omega

theorem szO_map_snd (r : Option (Option String × Value)) :
    szO (r.map Prod.snd) = szRO r := by
  cases r with
  | none => simp [szO, szRO]
  | some kv => obtain ⟨k, v⟩ := kv; simp [szO, szRO]

/-- The Vec that FnType.isSubtypeOf builds from a parameter record via
Vec.of(values(param), optionalPos, rest?.value). -/
def paramVec (p : List (String × Value)) (pos : Nat)
    (r : Option (Option String × Value)) : Value :=
  .vec (pvals p) pos (r.map Prod.snd)

theorem sz_paramVec (p : List (String × Value)) (pos : Nat)
    (r : Option (Option String × Value)) :
    sz (paramVec p pos r) = 1 + szP p + szRO r := by
  simp [paramVec, sz, szL_pvals, szO_map_snd]

/-- superType field of each class (All.superType is itself; Unit, the
type classes, TypeVar, Vec, Dict and UnionType have All; Prim has its
PrimType; Enum its EnumType; Fn its FnType; Struct its StructType). -/
def superTypeOf : Value → Value
  | .all => .all
  | .never => .all
  | .unit => .all
  | .prim n d _ => .primType n d
  | .primType _ _ => .all
  | .enumV _ n ls => .enumType n ls
  | .enumType _ _ => .all
  | .typeVar _ => .all
  | .fn _ p pos r out => .fnType p pos r out
  | .fnType _ _ _ _ => .all
  | .vec _ _ _ => .all
  | .dict _ _ _ => .all
  | .struct n par _ => .structType n par
  | .structType _ _ => .all
  | .unionType _ => .all

/-- isEqualSet on key lists: same elements, ignoring order and
multiplicity (util/isEqualSet). -/
def eqKeys (a b : List String) : Bool :=
  a.all (fun k => b.contains k) && b.all (fun k => a.contains k)

mutual

/-- isEqualTo of each class.  The base implementation compares object
identity; structurally equal values are identified here, except for Fn
and TypeVar whose isEqualTo is identity only (Fn identity is modelled
by the id tag, TypeVar identity by its structure).  Prim compares
payload and superType (PrimType compares by name); EnumType, StructType
and PrimType compare by name; FnType compares values(param) (names are
ignored), optionalPos, rest (name and value) and out; Vec and Dict
compare componentwise; UnionType checks that every member of the left
union has an isEqualTo match in the right one
(differenceWith(this.types, v.types, isEqual).length === 0). -/
def eqValue : Value → Value → Bool
  | .all, .all => true
  | .never, .never => true
  | .unit, .unit => true
  | .prim n1 _ v1, .prim n2 _ v2 => v1 == v2 && n1 == n2
  | .primType n1 _, .primType n2 _ => n1 == n2
  | .enumV l1 t1 _, .enumV l2 t2 _ => l1 == l2 && t1 == t2
  | .enumType n1 _, .enumType n2 _ => n1 == n2
  | .typeVar tv1, .typeVar tv2 => tv1 == tv2
  | .fn id1 _ _ _ _, .fn id2 _ _ _ _ => id1 == id2
  | .fnType p1 pos1 r1 o1, .fnType p2 pos2 r2 o2 =>
      eqArr (pvals p1) (pvals p2) && pos1 == pos2 && eqRest r1 r2 && eqValue o1 o2
  | .vec i1 p1 r1, .vec i2 p2 r2 => eqArr i1 i2 && p1 == p2 && eqOpt r1 r2
  | .dict i1 k1 r1, .dict i2 k2 r2 =>
      eqKeys (i1.map Prod.fst) (i2.map Prod.fst)
        && eqByKeys i1 i2 (i1.map Prod.fst)
        && eqKeys k1 k2 && eqOpt r1 r2
  | .struct n1 _ i1, .struct n2 _ i2 => n1 == n2 && eqArr i1 i2
  | .structType n1 _, .structType n2 _ => n1 == n2
  | .unionType t1, .unionType t2 => eqDiff t1 t2
  | _, _ => false
termination_by a b => sz a + sz b + 1
decreasing_by
  all_goals simp_wf
  all_goals simp [sz, szL, szP, szO, szRO, szL_pvals]
  all_goals first
  | omega
  | (have hk := pairsLen_le i1
     omega)

/-- isEqualArray: equal length and pointwise isEqualTo. -/
def eqArr : List Value → List Value → Bool
  | [], [] => true
  | a :: as, b :: bs => eqValue a b && eqArr as bs
  | _, _ => false
termination_by a b => szL a + szL b + 1
decreasing_by
  all_goals simp_wf
  all_goals simp [szL]
  all_goals omega

/-- nullishEqual on optional values. -/
def eqOpt : Option Value → Option Value → Bool
  | none, none => true
  | some a, some b => eqValue a b
  | _, _ => false
termination_by a b => szO a + szO b + 1
decreasing_by
  all_goals simp_wf
  all_goals simp [szO]
  all_goals omega

/-- nullishEqual on rest parameters: names and values must agree. -/
def eqRest : Option (Option String × Value) → Option (Option String × Value) → Bool
  | none, none => true
  | some (n1, v1), some (n2, v2) => n1 == n2 && eqValue v1 v2
  | _, _ => false
termination_by a b => szRO a + szRO b + 1
decreasing_by
  all_goals simp_wf
  all_goals simp [szRO]
  all_goals omega

/-- isEqualDict value part: for every key of the first record, the two
looked-up values are isEqualTo. -/
def eqByKeys : List (String × Value) → List (String × Value) → List String → Bool
  | _, _, [] => true
  | i1, i2, k :: ks =>
      (match h1 : i1.lookup k, h2 : i2.lookup k with
       | some a, some b => eqValue a b
       | _, _ => false)
      && eqByKeys i1 i2 ks
termination_by i1 i2 ks => szP i1 + szP i2 + ks.length + 1
decreasing_by
  all_goals simp_wf
  all_goals first
  | omega
  | (have ha := szP_lookup_lt h1
     have hb := szP_lookup_lt h2
     omega)

/-- differenceWith(a, b, isEqual).length === 0: every member of a has
a match in b. -/
def eqDiff : List Value → List Value → Bool
  | [], _ => true
  | a :: as, bs => eqAny a bs && eqDiff as bs
termination_by a b => szL a + szL b + 1
decreasing_by
  all_goals simp_wf
  all_goals simp [szL]
  all_goals omega

/-- some member of the list isEqualTo the value. -/
def eqAny : Value → List Value → Bool
  | _, [] => false
  | a, b :: bs => eqValue a b || eqAny a bs
termination_by a b => sz a + szL b + 1
decreasing_by
  all_goals simp_wf
  all_goals simp [szL]
  all_goals omega

end


/-- Dict.#isRequredKey: the key is present and not optional. -/
def requiredKey (items : List (String × Value)) (okeys : List String)
    (k : String) : Bool :=
  (items.map Prod.fst).contains k && !(okeys.contains k)

mutual

/-- isSubtypeOf.  Never and All override it (constantly true resp.
this.isEqualTo); FnType, Vec, Dict and UnionType have their own
structural implementations, each first short-circuiting on
this.superType.isSubtypeOf(v) (superType being All, that test is
All.isEqualTo(v)) and then on v being a UnionType (v.isSupertypeOf);
every other class uses the BaseValue implementation
(v union → v.isSupertypeOf(this), else isEqualTo or recurse into the
superType).  The Vec loop over v.items reads the candidate through an
iterator that yields the items then the rest forever; the counter i in
the source only advances on iterations whose candidate item is absent,
so a missing fixed position is tolerated only when v.optionalPos ≤ 0
(the post-increment keeps i at 0 at the first missing position); when
the item loop already consumed rest yields (more supertype items than
candidate items), the trailing next(true) returns at once and the
rest-versus-rest comparison is skipped.  The helpers below implement
the list drops of that traversal by simultaneous recursion on both
item lists. -/
def isSub : Value → Value → Bool
  | .all, t => eqValue .all t
  | .never, _ => true
  | .vec si sp sr, t =>
      if eqValue .all t then true
      else
        match t with
        | .unionType ts => anySup (.vec si sp sr) ts
        | .vec ti tp tr =>
            if sp < tp then false
            else
              (zipOk si ti
                && (if si.length < ti.length then
                      match sr with
                      | some r => fillRest r si ti
                      | none => decide (tp = 0)
                    else true))
              && (match tr with
                  | none => true
                  | some vr =>
                      match sr with
                      | none => dropTo si ti vr
                      | some r =>
                          if ti.length ≤ si.length then
                            dropTo si ti vr && isSub r vr
                          else true)
        | _ => false
  | .dict si sk sr, t =>
      if eqValue .all t then true
      else
        match t with
        | .unionType ts => anySup (.dict si sk sr) ts
        | .dict ti tk tr =>
            dKeys si sk sr ti tk ti
              && (match tr with
                  | none => true
                  | some vr =>
                      dExtra si ti si vr
                        && (match sr with
                            | none => true
                            | some r => isSub r vr))
        | _ => false
  | .fnType sp spos srest sout, t =>
      if eqValue .all t then true
      else
        match t with
        | .unionType ts => anySup (.fnType sp spos srest sout) ts
        | .fnType tp tpos trest tout =>
            isSub (paramVec tp tpos trest) (paramVec sp spos srest)
              && isSub sout tout
        | _ => false
  | .unionType ss, t =>
      if eqValue .all t then true
      else
        match t with
        | .unionType ts => allAny ss ts
        | x => allAny ss [x]
  | .unit, t =>
      match t with
      | .unionType ts => anySup .unit ts
      | x => eqValue .unit x || isSub (superTypeOf .unit) x
  | .prim n d v, t =>
      match t with
      | .unionType ts => anySup (.prim n d v) ts
      | x => eqValue (.prim n d v) x || isSub (superTypeOf (.prim n d v)) x
  | .primType n d, t =>
      match t with
      | .unionType ts => anySup (.primType n d) ts
      | x => eqValue (.primType n d) x || isSub (superTypeOf (.primType n d)) x
  | .enumV l n ls, t =>
      match t with
      | .unionType ts => anySup (.enumV l n ls) ts
      | x => eqValue (.enumV l n ls) x || isSub (superTypeOf (.enumV l n ls)) x
  | .enumType n ls, t =>
      match t with
      | .unionType ts => anySup (.enumType n ls) ts
      | x => eqValue (.enumType n ls) x || isSub (superTypeOf (.enumType n ls)) x
  | .typeVar tv, t =>
      match t with
      | .unionType ts => anySup (.typeVar tv) ts
      | x => eqValue (.typeVar tv) x || isSub (superTypeOf (.typeVar tv)) x
  | .fn i p pos r out, t =>
      match t with
      | .unionType ts => anySup (.fn i p pos r out) ts
      | x =>
          eqValue (.fn i p pos r out) x
            || isSub (superTypeOf (.fn i p pos r out)) x
  | .struct n par items, t =>
      match t with
      | .unionType ts => anySup (.struct n par items) ts
      | x =>
          eqValue (.struct n par items) x
            || isSub (superTypeOf (.struct n par items)) x
  | .structType n par, t =>
      match t with
      | .unionType ts => anySup (.structType n par) ts
      | x =>
          eqValue (.structType n par) x
            || isSub (superTypeOf (.structType n par)) x
termination_by s t => sz s + sz t + 1
decreasing_by
  all_goals simp_wf
  all_goals simp [sz, szL, szP, szO, szRO, sz_paramVec, superTypeOf,
    szL_pvals, szO_map_snd]
  all_goals omega

/-- Pairwise comparison of the overlapping item positions. -/
def zipOk : List Value → List Value → Bool
  | _, [] => true
  | [], _ => true
  | a :: as, b :: bs => isSub a b && zipOk as bs
termination_by a b => szL a + szL b + 1
decreasing_by
  all_goals simp_wf
  all_goals simp [szL]
  all_goals omega

/-- The candidate rest type checked against every supertype item
position past the candidate items: fillRest r si ti checks r against
each member of ti.drop si.length. -/
def fillRest : Value → List Value → List Value → Bool
  | _, _, [] => true
  | r, [], b :: bs => isSub r b && fillRest r [] bs
  | r, _ :: as, _ :: bs => fillRest r as bs
termination_by r a b => sz r + szL a + szL b + 1
decreasing_by
  all_goals simp_wf
  all_goals simp [szL]
  all_goals omega

/-- Every candidate item past the supertype items checked against the
supertype rest: dropTo si ti vr checks each member of
si.drop ti.length against vr. -/
def dropTo : List Value → List Value → Value → Bool
  | [], _, _ => true
  | a :: as, [], vr => isSub a vr && dropTo as [] vr
  | _ :: as, _ :: ts, vr => dropTo as ts vr
termination_by a b vr => szL a + szL b + sz vr + 1
decreasing_by
  all_goals simp_wf
  all_goals simp [szL]
  all_goals omega

/-- UnionType.isSupertypeOf: this.types.some(s.isSubtypeOf). -/
def anySup : Value → List Value → Bool
  | _, [] => false
  | s, m :: ms => isSub s m || anySup s ms
termination_by s ms => sz s + szL ms + 1
decreasing_by
  all_goals simp_wf
  all_goals simp [szL]
  all_goals omega

/-- UnionType.isSubtypeOf body: every member of the left union must be
a subtype of some member of the right-hand side list. -/
def allAny : List Value → List Value → Bool
  | [], _ => true
  | m :: ms, ts => anySup m ts && allAny ms ts
termination_by ms ts => szL ms + szL ts + 1
decreasing_by
  all_goals simp_wf
  all_goals simp [szL]
  all_goals omega

/-- Dict.isSubtypeOf key loop over keys(v.items) (the first components
of the supertype pair list, in order): required supertype keys need a
required matching entry in the candidate, optional ones are checked
when the candidate has the key or a rest.  The values are read back
through lookup, exactly as v.items[k] does. -/
def dKeys : List (String × Value) → List String → Option Value →
    List (String × Value) → List String → List (String × Value) → Bool
  | _, _, _, _, _, [] => true
  | si, sk, sr, ti, tk, (k, _) :: rem =>
      (match h1 : ti.lookup k with
       | none => true
       | some vi =>
          if requiredKey ti tk k then
            (match h2 : (if requiredKey si sk k then si.lookup k else none) with
             | none => false
             | some sv => isSub sv vi)
          else
            (match h3 : (if (si.map Prod.fst).contains k then si.lookup k else sr) with
             | none => true
             | some sv => isSub sv vi))
      && dKeys si sk sr ti tk rem
termination_by si sk sr ti tk rem => szP si + szO sr + szP ti + szP rem + 1
decreasing_by
  all_goals simp_wf
  all_goals simp [szP]
  all_goals first
  | omega
  | (have ha := szP_lookup_lt h1
     split at h2
     case _ =>
       have hb := szP_lookup_lt h2
       simp [szO]
       omega
     case _ => simp at h2)
  | (have ha := szP_lookup_lt h1
     split at h3
     case _ =>
       have hb := szP_lookup_lt h3
       simp [szO]
       omega
     case _ =>
       subst h3
       simp [szO]
       omega)

/-- Dict.isSubtypeOf extra-key loop: iterates the candidate keys,
skipping those present in the supertype (lodash difference), and
checks the remaining values against the supertype rest. -/
def dExtra : List (String × Value) → List (String × Value) →
    List (String × Value) → Value → Bool
  | _, _, [], _ => true
  | si, ti, (k, _) :: rem, vr =>
      (if (ti.map Prod.fst).contains k then true
       else
         match h1 : si.lookup k with
         | none => true
         | some sv => isSub sv vr)
      && dExtra si ti rem vr
termination_by si ti rem vr => szP si + szP rem + sz vr + 1
decreasing_by
  all_goals simp_wf
  all_goals simp [szP]
  all_goals first
  | omega
  | (have ha := szP_lookup_lt h1
     omega)

end

/-- NumType = PrimType.ofLiteral('Num', Num.of(0)). -/
def numTypeV : Value := .primType "Num" (.num 0)

/-- StrType = PrimType.ofLiteral('Str', Str.of('')). -/
def strTypeV : Value := .primType "Str" (.str "")

/-- Num.of(n): a Prim owned by NumType. -/
def numOf (n : Int) : Value := .prim "Num" (.num 0) (.num n)

/-- Str.of(s): a Prim owned by StrType. -/
def strOf (s : String) : Value := .prim "Str" (.str "") (.str s)

theorem contains_of_mem {k : String} {ks : List String} (h : k ∈ ks) :
    ks.contains k = true :=
  List.elem_eq_true_of_mem h

theorem eqKeys_refl (ks : List String) : eqKeys ks ks = true := by
  simp [eqKeys, List.all_eq_true]

theorem eqArr_refl (l : List Value) (h : ∀ x ∈ l, eqValue x x = true) :
    eqArr l l = true := by
  induction l with
  | nil => simp [eqArr]
  | cons a as ih =>
    simp [eqArr]
    exact ⟨h a (by simp), ih (fun x hx => h x (by simp [hx]))⟩

theorem eqOpt_refl (r : Option Value) (h : ∀ x, r = some x → eqValue x x = true) :
    eqOpt r r = true := by
  cases r with
  | none => simp [eqOpt]
  | some v => simpa [eqOpt] using h v rfl

theorem eqRest_refl (r : Option (Option String × Value))
    (h : ∀ n x, r = some (n, x) → eqValue x x = true) : eqRest r r = true := by
  cases r with
  | none => simp [eqRest]
  | some kv =>
    obtain ⟨n, v⟩ := kv
    simpa [eqRest] using h n v rfl

theorem lookup_of_contains {k : String} {ps : List (String × Value)}
    (h : (ps.map Prod.fst).contains k = true) : ∃ v, ps.lookup k = some v := by
  induction ps with
  | nil => simp at h
  | cons p ps ih =>
    obtain ⟨k', v'⟩ := p
    by_cases hk : k = k'
    · subst hk
      exact ⟨v', by simp [List.lookup]⟩
    · have hk' : (k == k') = false := by simp [hk]
      simp [List.lookup, hk']
      apply ih
      simp [List.elem_iff] at h ⊢
      tauto

theorem eqByKeys_refl (i : List (String × Value)) (ks : List String)
    (hmem : ∀ k ∈ ks, (i.map Prod.fst).contains k = true)
    (h : ∀ k v, i.lookup k = some v → eqValue v v = true) :
    eqByKeys i i ks = true := by
  induction ks with
  | nil => simp [eqByKeys]
  | cons k ks ih =>
    obtain ⟨v, hv⟩ := lookup_of_contains (hmem k (by simp))
    rw [eqByKeys, Bool.and_eq_true]
    constructor
    · split
      · rename_i a b h1 h2
        rw [hv] at h1 h2
        cases h1
        cases h2
        exact h k v hv
      · rename_i hne
        exact (hne v v hv hv).elim
    · exact ih (fun k hk => hmem k (by simp [hk]))

theorem eqAny_of_mem {a b : Value} {bs : List Value} (hab : eqValue a b = true)
    (hb : b ∈ bs) : eqAny a bs = true := by
  induction bs with
  | nil => cases hb
  | cons x xs ih =>
    rcases List.mem_cons.mp hb with h | h
    · subst h; simp [eqAny, hab]
    · simp [eqAny, ih h]

theorem eqDiff_refl (l : List Value) (h : ∀ x ∈ l, eqValue x x = true) :
    eqDiff l l = true := by
  have haux : ∀ sub : List Value, (∀ x ∈ sub, x ∈ l) → eqDiff sub l = true := by
    intro sub
    induction sub with
    | nil => intro _; simp [eqDiff]
    | cons a as ih =>
      intro hs
      have ha : a ∈ l := hs a (by simp)
      simp [eqDiff]
      exact ⟨eqAny_of_mem (h a ha) ha, ih (fun x hx => hs x (by simp [hx]))⟩
  exact haux l (fun x hx => hx)

theorem TypeVarT.beq_refl : ∀ t : TypeVarT, TypeVarT.beq t t = true
  | .mk n none => by simp [TypeVarT.beq]
  | .mk n (some o) => by
      simp [TypeVarT.beq]
      exact TypeVarT.beq_refl o

/-- isEqualTo is reflexive: a value compared with itself (matching the
identity short-circuit of the source) is equal. -/
theorem eqRefl (v : Value) : eqValue v v = true := by
  suffices haux : ∀ n v, sz v ≤ n → eqValue v v = true from haux (sz v) v le_rfl
  intro n
  induction n with
  | zero =>
    intro v hv
    have := sz_pos v
    omega
  | succ n ih =>
    intro v hv
    cases v with
    | all => simp [eqValue]
    | never => simp [eqValue]
    | unit => simp [eqValue]
    | prim n d p => simp [eqValue]
    | primType n d => simp [eqValue]
    | enumV l t ls => simp [eqValue]
    | enumType n ls => simp [eqValue]
    | typeVar tv =>
      simp [eqValue, BEq.beq]
      exact TypeVarT.beq_refl tv
    | fn i p pos r out => simp [eqValue]
    | fnType p pos r out =>
      simp [sz] at hv
      have h1 : eqArr (pvals p) (pvals p) = true := by
        apply eqArr_refl
        intro x hx
        have hszx : sz x < 1 + szL (pvals p) := szL_mem_lt hx
        rw [szL_pvals] at hszx
        exact ih x (by omega)
      have h2 : eqRest r r = true := by
        apply eqRest_refl
        intro nm x hx
        subst hx
        simp [szRO] at hv
        exact ih x (by omega)
      have h3 : eqValue out out = true := ih out (by omega)
      rw [eqValue]
      simp [h1, h2, h3]
    | vec items pos rest =>
      simp [sz] at hv
      have h1 : eqArr items items = true := by
        apply eqArr_refl
        intro x hx
        have := szL_mem_lt hx
        exact ih x (by omega)
      have h2 : eqOpt rest rest = true := by
        apply eqOpt_refl
        intro x hx
        subst hx
        simp [szO] at hv
        exact ih x (by omega)
      rw [eqValue]
      simp [h1, h2]
    | dict items okeys rest =>
      simp [sz] at hv
      have h1 : eqByKeys items items (items.map Prod.fst) = true := by
        apply eqByKeys_refl
        · intro k hk
          exact List.elem_eq_true_of_mem hk
        · intro k x hx
          have := szP_lookup_lt hx
          exact ih x (by omega)
      have h2 : eqOpt rest rest = true := by
        apply eqOpt_refl
        intro x hx
        subst hx
        simp [szO] at hv
        exact ih x (by omega)
      rw [eqValue]
      simp [h1, h2, eqKeys_refl]
    | struct n par items =>
      simp [sz] at hv
      have h1 : eqArr items items = true := by
        apply eqArr_refl
        intro x hx
        have := szL_mem_lt hx
        exact ih x (by omega)
      rw [eqValue]
      simp [h1]
    | structType n par => simp [eqValue]
    | unionType ts =>
      simp [sz] at hv
      rw [eqValue]
      apply eqDiff_refl
      intro x hx
      have := szL_mem_lt hx
      exact ih x (by omega)

/-- Everything is a subtype of All: each superType chain ends at All
and All.isSubtypeOf(All) holds by identity. -/
theorem subAll (v : Value) : isSub v .all = true := by
  cases v <;> simp [isSub, eqValue, superTypeOf]

theorem anySup_of_mem {s m : Value} {ts : List Value} (hm : m ∈ ts)
    (hs : isSub s m = true) : anySup s ts = true := by
  induction ts with
  | nil => cases hm
  | cons x xs ih =>
    rcases List.mem_cons.mp hm with h | h
    · subst h; simp [anySup, hs]
    · simp [anySup, ih h]

theorem zipOk_refl (l : List Value) (h : ∀ x ∈ l, isSub x x = true) :
    zipOk l l = true := by
  induction l with
  | nil => simp [zipOk]
  | cons a as ih =>
    simp [zipOk]
    exact ⟨h a (by simp), ih (fun x hx => h x (by simp [hx]))⟩

theorem dropTo_self (l : List Value) (vr : Value) : dropTo l l vr = true := by
  induction l with
  | nil => simp [dropTo]
  | cons a as ih => simp [dropTo, ih]

theorem dKeys_refl (si : List (String × Value)) (sk : List String)
    (sr : Option Value) (rem : List (String × Value))
    (hmem : ∀ kv ∈ rem, (si.map Prod.fst).contains kv.1 = true)
    (h : ∀ k v, si.lookup k = some v → isSub v v = true) :
    dKeys si sk sr si sk rem = true := by
  induction rem with
  | nil => simp [dKeys]
  | cons kv rem ih =>
    obtain ⟨k, v0⟩ := kv
    have hc : (si.map Prod.fst).contains k = true := hmem (k, v0) (by simp)
    obtain ⟨vi, hvi⟩ := lookup_of_contains hc
    rw [dKeys, Bool.and_eq_true]
    refine ⟨?_, ih (fun kv hkv => hmem kv (by simp [hkv]))⟩
    split
    · rfl
    · rename_i vi2 h1
      rw [hvi] at h1
      cases h1
      split
      · split
        · rename_i hreq hnone
          rw [if_pos hreq, hvi] at hnone
          simp at hnone
        · rename_i hreq sv hsv
          rw [if_pos hreq, hvi] at hsv
          cases hsv
          exact h k vi hvi
      · split
        · rfl
        · rename_i sv hsv
          rw [if_pos hc, hvi] at hsv
          cases hsv
          exact h k vi hvi

theorem dExtra_skip (si ti rem : List (String × Value)) (vr : Value)
    (hmem : ∀ kv ∈ rem, (ti.map Prod.fst).contains kv.1 = true) :
    dExtra si ti rem vr = true := by
  induction rem with
  | nil => simp [dExtra]
  | cons kv rem ih =>
    obtain ⟨k, v0⟩ := kv
    have hc : (ti.map Prod.fst).contains k = true := hmem (k, v0) (by simp)
    rw [dExtra, Bool.and_eq_true]
    refine ⟨?_, ih (fun kv hkv => hmem kv (by simp [hkv]))⟩
    split
    · rfl
    · rename_i hcf
      exact absurd hc hcf

theorem allAny_self (ss : List Value) (h : ∀ m ∈ ss, isSub m m = true) :
    allAny ss ss = true := by
  have haux : ∀ sub : List Value, (∀ x ∈ sub, x ∈ ss) → allAny sub ss = true := by
    intro sub
    induction sub with
    | nil => intro _; simp [allAny]
    | cons a as ih =>
      intro hs
      have ha : a ∈ ss := hs a (by simp)
      simp [allAny]
      exact ⟨anySup_of_mem ha (h a ha), ih (fun x hx => hs x (by simp [hx]))⟩
  exact haux ss (fun x hx => hx)

/-- isSubtypeOf is reflexive on every value. -/
theorem subRefl (v : Value) : isSub v v = true := by
  suffices haux : ∀ n v, sz v ≤ n → isSub v v = true from haux (sz v) v le_rfl
  intro n
  induction n with
  | zero =>
    intro v hv
    have := sz_pos v
    omega
  | succ n ih =>
    intro v hv
    cases v with
    | all => simp [isSub, eqValue]
    | never => simp [isSub]
    | unit => simp [isSub, eqValue]
    | prim nm d p => simp [isSub, eqValue]
    | primType nm d => simp [isSub, eqValue]
    | enumV l t ls => simp [isSub, eqValue]
    | enumType nm ls => simp [isSub, eqValue]
    | typeVar tv => simp [isSub, eqValue, BEq.beq, TypeVarT.beq_refl tv]
    | fn i p pos r out => simp [isSub, eqValue]
    | fnType p pos r out =>
      simp [sz] at hv
      have h1 : isSub (paramVec p pos r) (paramVec p pos r) = true := by
        apply ih
        rw [sz_paramVec]
        omega
      have h2 : isSub out out = true := ih out (by omega)
      simp [isSub, eqValue, h1, h2]
    | vec items pos rest =>
      simp [sz] at hv
      have h1 : zipOk items items = true := by
        apply zipOk_refl
        intro x hx
        have := szL_mem_lt hx
        exact ih x (by omega)
      cases rest with
      | none => simp [isSub, eqValue, h1]
      | some vr =>
        simp [szO] at hv
        simp [isSub, eqValue, h1, dropTo_self, ih vr (by omega)]
    | dict items okeys rest =>
      simp [sz] at hv
      have hmm : ∀ kv ∈ items, ((items.map Prod.fst).contains kv.1) = true :=
        fun kv hkv => List.elem_eq_true_of_mem (List.mem_map_of_mem Prod.fst hkv)
      have h1 : dKeys items okeys rest items okeys items = true := by
        apply dKeys_refl _ _ _ _ hmm
        intro k x hx
        have := szP_lookup_lt hx
        exact ih x (by omega)
      cases rest with
      | none => simp [isSub, eqValue, h1]
      | some vr =>
        simp [szO] at hv
        simp [isSub, eqValue, h1, dExtra_skip items items items vr hmm,
          ih vr (by omega)]
    | struct nm par items => simp [isSub, eqValue, eqRefl]
    | structType nm par => simp [isSub, eqValue]
    | unionType ts =>
      simp [sz] at hv
      have h1 : allAny ts ts = true := by
        apply allAny_self
        intro m hm
        have := szL_mem_lt hm
        exact ih m (by omega)
      simp [isSub, eqValue, h1]

/-- Whether a value is a UnionType. -/
def isUnionVal : Value → Bool
  | .unionType _ => true
  | _ => false

/-- The member list UnionType.isSubtypeOf compares against:
e.type === 'UnionType' ? e.types : [e]. -/
def membersOf : Value → List Value
  | .unionType ts => ts
  | x => [x]

theorem anySup_iff (s : Value) (ts : List Value) :
    anySup s ts = true ↔ ∃ m ∈ ts, isSub s m = true := by
  induction ts with
  | nil => simp [anySup]
  | cons x xs ih =>
    simp [anySup, Bool.or_eq_true, ih]

theorem allAny_iff (ms ts : List Value) :
    allAny ms ts = true ↔ ∀ m ∈ ms, ∃ x ∈ ts, isSub m x = true := by
  induction ms with
  | nil => simp [allAny]
  | cons a as ih =>
    simp [allAny, Bool.and_eq_true, ih, anySup_iff]

theorem eqValue_all_eq {v : Value} (h : eqValue .all v = true) : v = .all := by
  cases v <;> simp [eqValue] at h <;> rfl

/-- Union on the right for a non-union candidate: the subtype test
against a UnionType holds exactly when some member is a supertype.
The member list must be the one of a constructible union: nonempty
(UnionType requires at least two members) and without All (members
are UnitableType). -/
theorem unionRight_iff (s : Value) (hs : isUnionVal s = false) (ts : List Value)
    (hne : ts ≠ []) (hall : Value.all ∉ ts) :
    (isSub s (.unionType ts) = true ↔ ∃ m ∈ ts, isSub s m = true) := by
  cases s with
  | all =>
    simp [isSub]
    constructor
    · intro h
      simp [eqValue] at h
    · rintro ⟨m, hm, h⟩
      have := eqValue_all_eq h
      subst this
      exact absurd hm hall
  | never =>
    simp [isSub]
    obtain ⟨m, hm⟩ := List.exists_mem_of_ne_nil ts hne
    exact ⟨m, hm⟩
  | unionType ms => simp [isUnionVal] at hs
  | unit => simp [isSub, anySup_iff]
  | prim nm d p => simp [isSub, anySup_iff]
  | primType nm d => simp [isSub, anySup_iff]
  | enumV l t ls => simp [isSub, anySup_iff]
  | enumType nm ls => simp [isSub, anySup_iff]
  | typeVar tv => simp [isSub, anySup_iff]
  | fn i p pos r out => simp [isSub, eqValue, anySup_iff]
  | fnType p pos r out => simp [isSub, eqValue, anySup_iff]
  | vec items pos rest => simp [isSub, eqValue, anySup_iff]
  | dict items okeys rest => simp [isSub, eqValue, anySup_iff]
  | struct nm par its => simp [isSub, anySup_iff]
  | structType nm par => simp [isSub, anySup_iff]

/-- Union on the left: a UnionType is a subtype of v exactly when
every member is a subtype of some member of v (a non-union v counting
as its own single-member list). -/
theorem unionLeft_iff (ms : List Value) (t : Value) :
    (isSub (.unionType ms) t = true ↔
      ∀ m ∈ ms, ∃ x ∈ membersOf t, isSub m x = true) := by
  cases t with
  | all =>
    simp [isSub, eqValue, membersOf]
    intro m hm
    exact subAll m
  | unionType ts => simp [isSub, eqValue, membersOf, allAny_iff]
  | never => simp [isSub, eqValue, membersOf, allAny_iff]
  | unit => simp [isSub, eqValue, membersOf, allAny_iff]
  | prim nm d p => simp [isSub, eqValue, membersOf, allAny_iff]
  | primType nm d => simp [isSub, eqValue, membersOf, allAny_iff]
  | enumV l ty ls => simp [isSub, eqValue, membersOf, allAny_iff]
  | enumType nm ls => simp [isSub, eqValue, membersOf, allAny_iff]
  | typeVar tv => simp [isSub, eqValue, membersOf, allAny_iff]
  | fn i p pos r out => simp [isSub, eqValue, membersOf, allAny_iff]
  | fnType p pos r out => simp [isSub, eqValue, membersOf, allAny_iff]
  | vec items pos rest => simp [isSub, eqValue, membersOf, allAny_iff]
  | dict items okeys rest => simp [isSub, eqValue, membersOf, allAny_iff]
  | struct nm par its => simp [isSub, eqValue, membersOf, allAny_iff]
  | structType nm par => simp [isSub, eqValue, membersOf, allAny_iff]

/-- C1: subtyping is reflexive with Never as bottom and All as top:
every Value is a subtype of itself, Never.isSubtypeOf is constantly
true, and every Value is a subtype of All. -/
theorem claim_C1_subtyping_refl_bottom_top (v : Value) :
    isSub v v = true ∧ isSub .never v = true ∧ isSub v .all = true :=
  ⟨subRefl v, by simp [isSub], subAll v⟩

/-- C2 counterexample: with U = UnionType([Num, Str]), U.isSubtypeOf(U)
is true, but no single member of U is a supertype of U, so the claim
quantified over every Value s (including unions) fails: its first part
demands that U.isSubtypeOf(U) hold iff some member of U is a
supertype of U. -/
theorem claim_C2_counterexample :
    isSub (.unionType [numTypeV, strTypeV]) (.unionType [numTypeV, strTypeV]) = true
      ∧ isSub (.unionType [numTypeV, strTypeV]) numTypeV = false
      ∧ isSub (.unionType [numTypeV, strTypeV]) strTypeV = false := by
  refine ⟨?_, ?_, ?_⟩ <;>
    simp [isSub, eqValue, allAny, anySup, numTypeV, strTypeV, superTypeOf]

/-- C2 (amended): some-on-the-right holds for every non-union
candidate against a constructible union member list (nonempty, without
All), and all-on-the-left holds for every UnionType candidate against
every Value, a non-union supertype counting as its own single-member
list. -/
theorem claim_C2_union_subtyping :
    (∀ s ts, isUnionVal s = false → ts ≠ [] → Value.all ∉ ts →
      (isSub s (.unionType ts) = true ↔ ∃ m ∈ ts, isSub s m = true))
    ∧ (∀ ms t, isSub (.unionType ms) t = true ↔
        ∀ m ∈ ms, ∃ x ∈ membersOf t, isSub m x = true) :=
  ⟨fun s ts hs hne hall => unionRight_iff s hs ts hne hall, unionLeft_iff⟩

/-- Witness for C2 at concrete inputs: Num(5) against
UnionType([Num, Str]), and that union against Num. -/
theorem claim_C2_union_subtyping_witness :
    (isSub (numOf 5) (.unionType [numTypeV, strTypeV]) = true ↔
      ∃ m ∈ [numTypeV, strTypeV], isSub (numOf 5) m = true) ∧
    (isSub (.unionType [numTypeV, strTypeV]) numTypeV = true ↔
      ∀ m ∈ [numTypeV, strTypeV], ∃ x ∈ membersOf numTypeV, isSub m x = true) :=
  ⟨claim_C2_union_subtyping.1 (numOf 5) [numTypeV, strTypeV]
      (by simp [isUnionVal, numOf]) (by simp)
      (by simp [numTypeV, strTypeV]),
   claim_C2_union_subtyping.2 [numTypeV, strTypeV] numTypeV⟩

/-- C3 counterexample: FnType([Never] -> Num) is NOT a subtype of
FnType([Num] -> Num) in the code (the claim asserts it is): the
contravariant comparison asks for Vec([Num]) ≤ Vec([Never]), and
NumType is not a subtype of Never. -/
theorem claim_C3_counterexample :
    isSub (.fnType [("x", .never)] 1 none numTypeV)
      (.fnType [("x", numTypeV)] 1 none numTypeV) = false := by
  simp [isSub, eqValue, paramVec, pvals, zipOk, numTypeV, superTypeOf,
    eqArr, eqRest, dropTo]

/-- C3 (amended): FnType subtyping is contravariant in the parameter
vector and covariant in the output: A ≤ B iff B's parameter Vec is a
subtype of A's and A's output is a subtype of B's.  In particular
FnType([Num,Num] -> Num) is not a subtype of FnType([Never] -> Num),
and the subtyping between single-Never and single-Num parameter lists
runs in the direction opposite to the claim:
FnType([Num] -> Num) ≤ FnType([Never] -> Num). -/
theorem claim_C3_fn_contravariance :
    (∀ pa posa ra oa pb posb rb ob,
       isSub (.fnType pa posa ra oa) (.fnType pb posb rb ob)
         = (isSub (paramVec pb posb rb) (paramVec pa posa ra) && isSub oa ob))
    ∧ isSub (.fnType [("x", numTypeV), ("y", numTypeV)] 2 none numTypeV)
        (.fnType [("z", .never)] 1 none numTypeV) = false
    ∧ isSub (.fnType [("x", numTypeV)] 1 none numTypeV)
        (.fnType [("z", .never)] 1 none numTypeV) = true := by
  refine ⟨?_, ?_, ?_⟩
  · intro pa posa ra oa pb posb rb ob
    simp [isSub, eqValue]
  · simp [isSub, eqValue, paramVec, pvals, zipOk, numTypeV, superTypeOf,
      eqArr, eqRest, dropTo]
  · simp [isSub, eqValue, paramVec, pvals, zipOk, numTypeV, superTypeOf,
      eqArr, eqRest, dropTo]

mutual

/-- isType (val.ts walk.createFoldFn with initial value false and or):
TypeVar, Never, PrimType, EnumType, FnType, StructType and UnionType
are types; Fn is not; Vec and Dict are types when they have a rest, an
optional part, or a type among their members.  walk.ts is not under
src/, but the fold map in val.ts lists exactly these cases over the
initial value false, so every unlisted variant (All, Unit, Prim, Enum,
Struct) folds to false. -/
def isType : Value → Bool
  | .typeVar _ => true
  | .never => true
  | .primType _ _ => true
  | .enumType _ _ => true
  | .fnType _ _ _ _ => true
  | .structType _ _ => true
  | .unionType _ => true
  | .fn _ _ _ _ _ => false
  | .vec items pos rest =>
      decide (pos < items.length) || rest.isSome || anyType items
  | .dict items okeys rest =>
      decide (okeys ≠ []) || rest.isSome || anyTypeP items
  | _ => false
termination_by v => sz v
decreasing_by
  all_goals simp_wf
  all_goals simp [sz]
  all_goals omega

/-- Some member is a type. -/
def anyType : List Value → Bool
  | [] => false
  | v :: vs => isType v || anyType vs
termination_by l => szL l
decreasing_by
  all_goals simp_wf
  all_goals simp [szL]
  all_goals omega

/-- Some record value is a type. -/
def anyTypeP : List (String × Value) → Bool
  | [] => false
  | (_, v) :: ps => isType v || anyTypeP ps
termination_by l => szP l
decreasing_by
  all_goals simp_wf
  all_goals simp [szP]
  all_goals omega

end

mutual

/-- defaultValue of each class, computed per the source derivations
(the laziness, the memo cell, and the withDefault overrides are not
modelled: this is the canonical value derived on first access).  All
defaults to Unit; Never, Prim, Enum, Fn and Struct default to
themselves; PrimType defaults to a Prim carrying its literal; EnumType
to its first member; TypeVar to Unit; FnType to a Fn over itself
(given the synthetic id 0); Vec to the defaults of its required items
(Vec.of resets the boundary to the new length); Dict to the defaults
of its required entries; StructType to a Struct over the defaults of
its parameters; UnionType to the default of its first member. -/
def defaultValue : Value → Value
  | .all => .unit
  | .never => .never
  | .unit => .unit
  | .prim n d p => .prim n d p
  | .primType n d => .prim n d d
  | .enumV l n ls => .enumV l n ls
  | .enumType n ls => .enumV (ls.headD "") n ls
  | .typeVar _ => .unit
  | .fn i p pos r out => .fn i p pos r out
  | .fnType p pos r out => .fn 0 p pos r out
  | .vec items pos _ =>
      let ds := defaultsTake pos items
      .vec ds ds.length none
  | .dict items okeys _ => .dict (defaultsReq items okeys) [] none
  | .struct n par its => .struct n par its
  | .structType n par => .struct n par (defaultsP par)
  | .unionType ts =>
      match ts with
      | [] => .never
      | h :: _ => defaultValue h
termination_by v => sz v
decreasing_by
  all_goals simp_wf
  all_goals simp [sz, szL]
  all_goals omega

/-- items.slice(0, optionalPos).map(it => it.defaultValue). -/
def defaultsTake : Nat → List Value → List Value
  | 0, _ => []
  | _ + 1, [] => []
  | n + 1, v :: vs => defaultValue v :: defaultsTake n vs
termination_by n l => szL l
decreasing_by
  all_goals simp_wf
  all_goals simp [szL]
  all_goals omega

/-- Required dict entries mapped to their defaults. -/
def defaultsReq : List (String × Value) → List String → List (String × Value)
  | [], _ => []
  | (k, v) :: ps, okeys =>
      if okeys.contains k then defaultsReq ps okeys
      else (k, defaultValue v) :: defaultsReq ps okeys
termination_by ps okeys => szP ps
decreasing_by
  all_goals simp_wf
  all_goals simp [szP]
  all_goals omega

/-- values(param).map(p => p.defaultValue). -/
def defaultsP : List (String × Value) → List Value
  | [] => []
  | (_, v) :: ps => defaultValue v :: defaultsP ps
termination_by ps => szP ps
decreasing_by
  all_goals simp_wf
  all_goals simp [szP]
  all_goals omega

end

/-- Whether a value is a Prim (covers the Num and Str subclasses). -/
def isPrimVal : Value → Bool
  | .prim _ _ _ => true
  | _ => false

/-- Whether a value is an Enum. -/
def isEnumVal : Value → Bool
  | .enumV _ _ _ => true
  | _ => false

/-- isInstance: the base implementation checks !value.isType and
value.isSubtypeOf(this); PrimType and EnumType override it with a
variant check plus the subtype test. -/
def isInstance : Value → Value → Bool
  | .primType n d, v => isPrimVal v && isSub v (.primType n d)
  | .enumType n ls, v => isEnumVal v && isSub v (.enumType n ls)
  | t, v => !(isType v) && isSub v t

mutual

/-- The fragment of values over which the amended C9 holds: Never and
TypeVar excluded everywhere (their defaults, Never itself and Unit,
are no inhabitants), enum types nonempty, unions nonempty, and every
Vec boundary either 0 or the item count (a boundary strictly between
them makes the derived default lose its optional items, which the
subtype test then rejects because its position counter quirk only
tolerates missing items at boundary 0). -/
def okDefault : Value → Bool
  | .all => true
  | .never => false
  | .unit => true
  | .prim _ _ _ => true
  | .primType _ _ => true
  | .enumV _ _ _ => true
  | .enumType _ ls => decide (ls ≠ [])
  | .typeVar _ => false
  | .fn _ p _ r out => okP p && okRO r && okDefault out
  | .fnType p _ r out => okP p && okRO r && okDefault out
  | .vec items pos rest =>
      (decide (pos = 0) || decide (pos = items.length)) && okL items && okO rest
  | .dict items _ rest => okP items && okO rest
  | .struct _ par its => okP par && okL its
  | .structType _ par => okP par
  | .unionType ts => !ts.isEmpty && okL ts
termination_by v => sz v
decreasing_by
  all_goals simp_wf
  all_goals simp [sz]
  all_goals omega

/-- okDefault over a list. -/
def okL : List Value → Bool
  | [] => true
  | v :: vs => okDefault v && okL vs
termination_by l => szL l
decreasing_by
  all_goals simp_wf
  all_goals simp [szL]
  all_goals omega

/-- okDefault over record values. -/
def okP : List (String × Value) → Bool
  | [] => true
  | (_, v) :: ps => okDefault v && okP ps
termination_by l => szP l
decreasing_by
  all_goals simp_wf
  all_goals simp [szP]
  all_goals omega

/-- okDefault under an optional value. -/
def okO : Option Value → Bool
  | none => true
  | some v => okDefault v
termination_by o => szO o
decreasing_by
  all_goals simp_wf
  all_goals simp [szO]
  all_goals omega

/-- okDefault under an optional rest parameter. -/
def okRO : Option (Option String × Value) → Bool
  | none => true
  | some (_, v) => okDefault v
termination_by o => szRO o
decreasing_by
  all_goals simp_wf
  all_goals simp [szRO]
  all_goals omega

end

theorem okL_mem {l : List Value} {x : Value} (hl : okL l = true) (hx : x ∈ l) :
    okDefault x = true := by
  induction l with
  | nil => cases hx
  | cons a as ih =>
    rw [okL, Bool.and_eq_true] at hl
    rcases List.mem_cons.mp hx with h | h
    · subst h; exact hl.1
    · exact ih hl.2 h

theorem okP_mem {ps : List (String × Value)} {kv : String × Value}
    (hp : okP ps = true) (h : kv ∈ ps) : okDefault kv.2 = true := by
  induction ps with
  | nil => cases h
  | cons a as ih =>
    obtain ⟨k0, v0⟩ := a
    rw [okP, Bool.and_eq_true] at hp
    rcases List.mem_cons.mp h with h | h
    · subst h; exact hp.1
    · exact ih hp.2 h

theorem okP_lookup {ps : List (String × Value)} {k : String} {v : Value}
    (hp : okP ps = true) (h : ps.lookup k = some v) : okDefault v = true := by
  induction ps with
  | nil => simp [List.lookup] at h
  | cons a as ih =>
    obtain ⟨k0, v0⟩ := a
    rw [okP, Bool.and_eq_true] at hp
    simp [List.lookup] at h
    by_cases hk : k == k0
    · simp [hk] at h
      subst h
      exact hp.1
    · simp [hk] at h
      exact ih hp.2 h

theorem szP_mem_lt {ps : List (String × Value)} {kv : String × Value}
    (h : kv ∈ ps) : sz kv.2 < 1 + szP ps := by
  induction ps with
  | nil => cases h
  | cons a as ih =>
    obtain ⟨k0, v0⟩ := a
    rcases List.mem_cons.mp h with h | h
    · subst h; simp [szP]; omega
    · have := ih h; simp [szP]; omega

theorem defaultsTake_mem {n : Nat} {l : List Value} {x : Value}
    (hx : x ∈ defaultsTake n l) : ∃ v ∈ l, x = defaultValue v := by
  induction l generalizing n with
  | nil =>
    cases n <;> simp [defaultsTake] at hx
  | cons a as ih =>
    cases n with
    | zero => simp [defaultsTake] at hx
    | succ m =>
      rw [defaultsTake] at hx
      rcases List.mem_cons.mp hx with h | h
      · exact ⟨a, by simp, h⟩
      · obtain ⟨v, hv, he⟩ := ih h
        exact ⟨v, by simp [hv], he⟩

theorem defaultsReq_mem {items : List (String × Value)} {okeys : List String}
    {kv : String × Value} (h : kv ∈ defaultsReq items okeys) :
    ∃ v0, (kv.1, v0) ∈ items ∧ kv.2 = defaultValue v0 := by
  induction items with
  | nil => simp [defaultsReq] at h
  | cons a as ih =>
    obtain ⟨k0, v0⟩ := a
    rw [defaultsReq] at h
    by_cases hc : okeys.contains k0
    · rw [if_pos hc] at h
      obtain ⟨w, hw, he⟩ := ih h
      exact ⟨w, by simp [hw], he⟩
    · rw [if_neg hc] at h
      rcases List.mem_cons.mp h with h | h
      · subst h
        exact ⟨v0, by simp, rfl⟩
      · obtain ⟨w, hw, he⟩ := ih h
        exact ⟨w, by simp [hw], he⟩

theorem contains_of_lookup {ps : List (String × Value)} {k : String} {v : Value}
    (h : ps.lookup k = some v) : (ps.map Prod.fst).contains k = true := by
  induction ps with
  | nil => simp [List.lookup] at h
  | cons a as ih =>
    obtain ⟨k0, v0⟩ := a
    simp [List.lookup] at h
    by_cases hk : k == k0
    · simp [hk]
    · simp [hk] at h
      have hc := ih h
      simp [List.elem_iff] at hc ⊢
      tauto

theorem not_mem_of_contains_false {k : String} {ks : List String}
    (h : ks.contains k = false) : k ∉ ks := by
  intro hm
  have hc : ks.contains k = true := contains_of_mem hm
  rw [h] at hc
  cases hc

theorem lookup_defaultsReq {items : List (String × Value)} {okeys : List String}
    {k : String} {vi : Value} (hv : items.lookup k = some vi)
    (hk : okeys.contains k = false) :
    (defaultsReq items okeys).lookup k = some (defaultValue vi) := by
  induction items with
  | nil => simp [List.lookup] at hv
  | cons a as ih =>
    obtain ⟨k0, v0⟩ := a
    simp [List.lookup] at hv
    by_cases heq : k == k0
    · simp [heq] at hv
      subst hv
      have hk0 : okeys.contains k0 = false := by
        have : k = k0 := by simpa using heq
        rwa [this] at hk
      rw [defaultsReq, if_neg (by simpa using not_mem_of_contains_false hk0)]
      simp [List.lookup, heq]
    · simp [heq] at hv
      rw [defaultsReq]
      by_cases hc : okeys.contains k0
      · rw [if_pos hc]
        exact ih hv
      · rw [if_neg hc]
        simp [List.lookup, heq]
        exact ih hv

theorem defaultsReq_keys_not_mem {items : List (String × Value)}
    {okeys : List String} {k : String} (hk : okeys.contains k = true) :
    ((defaultsReq items okeys).map Prod.fst).contains k = false := by
  induction items with
  | nil => simp [defaultsReq]
  | cons a as ih =>
    obtain ⟨k0, v0⟩ := a
    rw [defaultsReq]
    by_cases hc : okeys.contains k0
    · rw [if_pos hc]
      exact ih
    · rw [if_neg hc]
      have hne : (k == k0) = false := by
        by_cases h : k = k0
        · subst h; rw [hk] at hc; exact absurd rfl hc
        · simp [h]
      simp [List.elem_iff] at ih ⊢
      constructor
      · intro h
        subst h
        rw [hk] at hc
        exact hc rfl
      · exact ih

theorem anyType_false {l : List Value} (h : ∀ x ∈ l, isType x = false) :
    anyType l = false := by
  induction l with
  | nil => simp [anyType]
  | cons a as ih =>
    simp [anyType, h a (by simp)]
    exact ih (fun x hx => h x (by simp [hx]))

theorem anyTypeP_false {ps : List (String × Value)}
    (h : ∀ kv ∈ ps, isType kv.2 = false) : anyTypeP ps = false := by
  induction ps with
  | nil => simp [anyTypeP]
  | cons a as ih =>
    obtain ⟨k, v⟩ := a
    simp [anyTypeP, h (k, v) (by simp)]
    exact ih (fun kv hkv => h kv (by simp [hkv]))

/-- Under okDefault, the derived default is never itself a type. -/
theorem default_not_type (v : Value) (hok : okDefault v = true) :
    isType (defaultValue v) = false := by
  suffices haux : ∀ n v, sz v ≤ n → okDefault v = true →
      isType (defaultValue v) = false from haux (sz v) v le_rfl hok
  clear hok
  intro n
  induction n with
  | zero =>
    intro v hv
    have := sz_pos v
    omega
  | succ n ih =>
    intro v hv hok
    cases v with
    | all => simp [defaultValue, isType]
    | never => simp [okDefault] at hok
    | unit => simp [defaultValue, isType]
    | prim nm d p => simp [defaultValue, isType]
    | primType nm d => simp [defaultValue, isType]
    | enumV l t ls => simp [defaultValue, isType]
    | enumType nm ls => simp [defaultValue, isType]
    | typeVar tv => simp [okDefault] at hok
    | fn i p pos r out => simp [defaultValue, isType]
    | fnType p pos r out => simp [defaultValue, isType]
    | vec items pos rest =>
      simp [sz] at hv
      rw [okDefault] at hok
      simp [Bool.and_eq_true] at hok
      rw [defaultValue]
      simp [isType]
      apply anyType_false
      intro x hx
      obtain ⟨v0, hv0, he⟩ := defaultsTake_mem hx
      subst he
      have := szL_mem_lt hv0
      exact ih v0 (by omega) (okL_mem hok.1.2 hv0)
    | dict items okeys rest =>
      simp [sz] at hv
      rw [okDefault] at hok
      simp [Bool.and_eq_true] at hok
      rw [defaultValue]
      simp [isType]
      apply anyTypeP_false
      intro kv hkv
      obtain ⟨v0, hv0, he⟩ := defaultsReq_mem hkv
      rw [he]
      have hsz := szP_mem_lt hv0
      simp at hsz
      have hokv := okP_mem hok.1 hv0
      simp at hokv
      exact ih v0 (by omega) hokv
    | struct nm par its => simp [defaultValue, isType]
    | structType nm par => simp [defaultValue, isType]
    | unionType ts =>
      simp [sz] at hv
      rw [okDefault, Bool.and_eq_true] at hok
      cases ts with
      | nil => simp at hok
      | cons h tl =>
        rw [defaultValue]
        simp [szL] at hv
        exact ih h (by omega) (okL_mem hok.2 (by simp))

/-- Under okDefault, the derived default is never All, Never or a
UnionType. -/
theorem default_shape (v : Value) (hok : okDefault v = true) :
    defaultValue v ≠ .all ∧ defaultValue v ≠ .never
      ∧ isUnionVal (defaultValue v) = false := by
  suffices haux : ∀ n v, sz v ≤ n → okDefault v = true →
      defaultValue v ≠ .all ∧ defaultValue v ≠ .never
        ∧ isUnionVal (defaultValue v) = false from haux (sz v) v le_rfl hok
  clear hok
  intro n
  induction n with
  | zero =>
    intro v hv
    have := sz_pos v
    omega
  | succ n ih =>
    intro v hv hok
    cases v with
    | never => simp [okDefault] at hok
    | typeVar tv => simp [okDefault] at hok
    | unionType ts =>
      simp [sz] at hv
      rw [okDefault, Bool.and_eq_true] at hok
      cases ts with
      | nil => simp at hok
      | cons h tl =>
        rw [defaultValue]
        simp [szL] at hv
        exact ih h (by omega) (okL_mem hok.2 (by simp))
    | _ => simp [defaultValue, isUnionVal]

/-- The subtype test of a non-All, non-Never, non-union candidate
against a UnionType defers to some-member matching. -/
theorem isSub_union_of_shape (d : Value) (ts : List Value)
    (h1 : d ≠ .all) (h2 : d ≠ .never) (h3 : isUnionVal d = false) :
    isSub d (.unionType ts) = anySup d ts := by
  cases d with
  | all => exact absurd rfl h1
  | never => exact absurd rfl h2
  | unionType ms => simp [isUnionVal] at h3
  | _ => simp [isSub, eqValue]

theorem zipOk_defaultsTake (l : List Value) (n : Nat)
    (h : ∀ v ∈ l, isSub (defaultValue v) v = true) :
    zipOk (defaultsTake n l) l = true := by
  induction l generalizing n with
  | nil => cases n <;> simp [defaultsTake, zipOk]
  | cons a as ih =>
    cases n with
    | zero => simp [defaultsTake, zipOk]
    | succ m =>
      rw [defaultsTake, zipOk, Bool.and_eq_true]
      exact ⟨h a (by simp), ih m (fun v hv => h v (by simp [hv]))⟩

theorem dropTo_short (as ts : List Value) (vr : Value)
    (h : as.length ≤ ts.length) : dropTo as ts vr = true := by
  induction as generalizing ts with
  | nil => simp [dropTo]
  | cons a as ih =>
    cases ts with
    | nil => simp at h
    | cons t ts =>
      rw [dropTo]
      exact ih ts (by simpa using h)

theorem defaultsTake_len (n : Nat) (l : List Value) :
    (defaultsTake n l).length = min n l.length := by
  induction l generalizing n with
  | nil => cases n <;> simp [defaultsTake]
  | cons a as ih =>
    cases n with
    | zero => simp [defaultsTake]
    | succ m => simp [defaultsTake, ih m]; omega

theorem mem_of_lookup {ps : List (String × Value)} {k : String} {v : Value}
    (h : ps.lookup k = some v) : (k, v) ∈ ps := by
  induction ps with
  | nil => simp [List.lookup] at h
  | cons a as ih =>
    obtain ⟨k0, v0⟩ := a
    simp [List.lookup] at h
    by_cases hk : k == k0
    · simp [hk] at h
      subst h
      have : k = k0 := by simpa using hk
      subst this
      simp
    · simp [hk] at h
      simp [ih h]

theorem dKeys_default (items : List (String × Value)) (okeys : List String)
    (rem : List (String × Value)) (hrem : ∀ kv ∈ rem, kv ∈ items)
    (hsub : ∀ k v, items.lookup k = some v → isSub (defaultValue v) v = true) :
    dKeys (defaultsReq items okeys) [] none items okeys rem = true := by
  induction rem with
  | nil => simp [dKeys]
  | cons kv rem ih =>
    obtain ⟨k, v0⟩ := kv
    have hcont : (items.map Prod.fst).contains k = true := by
      apply contains_of_mem
      exact List.mem_map_of_mem Prod.fst (hrem (k, v0) (by simp))
    obtain ⟨vi, hvi⟩ := lookup_of_contains hcont
    rw [dKeys, Bool.and_eq_true]
    refine ⟨?_, ih (fun kv hkv => hrem kv (by simp [hkv]))⟩
    split
    · rfl
    · rename_i vi2 h1
      rw [hvi] at h1
      cases h1
      split
      · rename_i hreq
        have hko : okeys.contains k = false := by
          cases hcb : okeys.contains k with
          | false => rfl
          | true =>
            have hmem : k ∈ okeys := List.elem_iff.mp hcb
            simp [requiredKey, hmem] at hreq
        have hlk : (defaultsReq items okeys).lookup k = some (defaultValue vi) :=
          lookup_defaultsReq hvi hko
        have hreqs : requiredKey (defaultsReq items okeys) [] k = true := by
          rw [requiredKey, contains_of_lookup hlk]
          rfl
        split
        · rename_i hnone
          rw [if_pos hreqs, hlk] at hnone
          cases hnone
        · rename_i sv hsv
          rw [if_pos hreqs, hlk] at hsv
          cases hsv
          exact hsub k vi hvi
      · rename_i hreq
        have hko : okeys.contains k = true := by
          cases hcb : okeys.contains k with
          | true => rfl
          | false =>
            refine absurd ?_ hreq
            rw [requiredKey]
            simp
            exact ⟨⟨vi, mem_of_lookup hvi⟩, not_mem_of_contains_false hcb⟩
        have hnc : ((defaultsReq items okeys).map Prod.fst).contains k = false :=
          defaultsReq_keys_not_mem hko
        split
        · rfl
        · rename_i sv hsv
          have hcond : ¬(((defaultsReq items okeys).map Prod.fst).contains k = true) := by
            rw [hnc]
            simp
          rw [if_neg hcond] at hsv
          cases hsv

/-- Under okDefault, the derived default value is a subtype of the
value it was derived from. -/
theorem default_isSub (v : Value) (hok : okDefault v = true) :
    isSub (defaultValue v) v = true := by
  suffices haux : ∀ n v, sz v ≤ n → okDefault v = true →
      isSub (defaultValue v) v = true from haux (sz v) v le_rfl hok
  clear hok
  intro n
  induction n with
  | zero =>
    intro v hv
    have := sz_pos v
    omega
  | succ n ih =>
    intro v hv hok
    cases v with
    | all => simp [defaultValue, isSub, eqValue, superTypeOf]
    | never => simp [okDefault] at hok
    | unit => simp [defaultValue, isSub, eqValue, superTypeOf]
    | prim nm d p => simp [defaultValue, isSub, eqValue, superTypeOf]
    | primType nm d =>
      simp [defaultValue, isSub, eqValue, superTypeOf]
    | enumV l t ls => simp [defaultValue, isSub, eqValue, superTypeOf]
    | enumType nm ls =>
      simp [defaultValue, isSub, eqValue, superTypeOf]
    | typeVar tv => simp [okDefault] at hok
    | fn i p pos r out => simp [defaultValue, isSub, eqValue, superTypeOf, subRefl]
    | fnType p pos r out =>
      rw [defaultValue]
      simp [isSub, eqValue, superTypeOf, subRefl]
    | vec items pos rest =>
      simp [sz] at hv
      rw [okDefault] at hok
      simp [Bool.and_eq_true] at hok
      obtain ⟨⟨hpos, hokl⟩, hokr⟩ := hok
      have hsubs : ∀ x ∈ items, isSub (defaultValue x) x = true := by
        intro x hx
        have := szL_mem_lt hx
        exact ih x (by omega) (okL_mem hokl hx)
      have hdl : (defaultsTake pos items).length = pos := by
        rw [defaultsTake_len]
        rcases hpos with h | h <;> omega
      have hzip := zipOk_defaultsTake items pos hsubs
      have hdle : (defaultsTake pos items).length ≤ items.length := by
        rw [hdl]
        rcases hpos with h | h <;> omega
      have key : isSub (.vec (defaultsTake pos items) pos none)
          (.vec items pos rest) = true := by
        cases rest with
        | none =>
          simp [isSub, eqValue, hzip, hdl]
          rcases hpos with h | h
          · right; exact h
          · left; omega
        | some vr =>
          have hdrop := dropTo_short (defaultsTake pos items) items vr hdle
          simp [isSub, eqValue, hzip, hdl, hdrop]
          rcases hpos with h | h
          · right; exact h
          · left; omega
      rw [defaultValue]
      simp only [hdl]
      exact key
    | dict items okeys rest =>
      simp [sz] at hv
      rw [okDefault, Bool.and_eq_true] at hok
      obtain ⟨hokp, hokr⟩ := hok
      have hsubs : ∀ k x, items.lookup k = some x →
          isSub (defaultValue x) x = true := by
        intro k x hx
        have := szP_lookup_lt hx
        exact ih x (by omega) (okP_lookup hokp hx)
      have hk := dKeys_default items okeys items (fun kv hkv => hkv) hsubs
      rw [defaultValue]
      cases rest with
      | none => simp [isSub, eqValue, hk]
      | some vr =>
        have hx2 : dExtra (defaultsReq items okeys) items
            (defaultsReq items okeys) vr = true := by
          apply dExtra_skip
          intro kv hkv
          obtain ⟨v0, hv0, _⟩ := defaultsReq_mem hkv
          apply contains_of_mem
          simpa using List.mem_map_of_mem Prod.fst hv0
        simp [isSub, eqValue, hk, hx2]
    | struct nm par its => simp [defaultValue, isSub, eqValue, eqRefl, superTypeOf]
    | structType nm par =>
      rw [defaultValue]
      simp [isSub, eqValue, superTypeOf]
    | unionType ts =>
      simp [sz] at hv
      rw [okDefault, Bool.and_eq_true] at hok
      cases ts with
      | nil => simp at hok
      | cons h tl =>
        rw [defaultValue]
        simp [szL] at hv
        have hokh : okDefault h = true := okL_mem hok.2 (by simp)
        have hd : isSub (defaultValue h) h = true := ih h (by omega) hokh
        have hsh := default_shape h hokh
        rw [isSub_union_of_shape _ _ hsh.1 hsh.2.1 hsh.2.2]
        exact anySup_of_mem (by simp) hd

/-- C9 counterexample: TypeVar is a Value type (isType is true), but
its defaultValue is Unit, and Unit is not an instance of a TypeVar
(Unit's superType chain reaches All without ever equalling the
TypeVar), so t.isInstance(t.defaultValue) is false at t = TypeVar
'T'. -/
theorem claim_C9_counterexample :
    isType (.typeVar (.mk "T" none)) = true
      ∧ isInstance (.typeVar (.mk "T" none))
          (defaultValue (.typeVar (.mk "T" none))) = false := by
  constructor
  · simp [isType]
  · simp [defaultValue, isInstance, isType, isSub, eqValue, superTypeOf]

/-- C9 (amended): for every Value type t in which Never and TypeVar do
not occur and every Vec boundary is 0 or the item count (okDefault),
the derived default value is not itself a type and
t.isInstance(t.defaultValue) holds. -/
theorem claim_C9_default_is_instance (t : Value) (hok : okDefault t = true)
    (hty : isType t = true) :
    isType (defaultValue t) = false ∧ isInstance t (defaultValue t) = true := by
  refine ⟨default_not_type t hok, ?_⟩
  have hsub := default_isSub t hok
  have hnt := default_not_type t hok
  cases t
  case primType nm d =>
    rw [defaultValue] at hsub ⊢
    simp [isInstance, isPrimVal, hsub]
  case enumType nm ls =>
    rw [defaultValue] at hsub ⊢
    simp [isInstance, isEnumVal]
    simpa using hsub
  all_goals simp [isInstance, hnt, hsub]

/-- Witness for C9 at t = NumType: okDefault and isType hold, the
default (the Prim 0) is not a type, and NumType.isInstance(Num(0)). -/
theorem claim_C9_default_is_instance_witness :
    okDefault numTypeV = true ∧ isType numTypeV = true
      ∧ isType (defaultValue numTypeV) = false
      ∧ isInstance numTypeV (defaultValue numTypeV) = true := by
  have h1 : okDefault numTypeV = true := by simp [okDefault, numTypeV]
  have h2 : isType numTypeV = true := by simp [isType, numTypeV]
  have h3 := claim_C9_default_is_instance numTypeV h1 h2
  exact ⟨h1, h2, h3.1, h3.2⟩

/-- C10: shadow returns a fresh TypeVar (a different object) with the
same name, unshadow on a shadowed TypeVar returns exactly its origin,
and unshadow on a TypeVar that was not created by shadowing (original
is absent) returns the TypeVar itself. -/
theorem claim_C10_typevar_shadow (t : TypeVarT) :
    (t.shadow).name = t.name ∧ t.shadow ≠ t ∧ (t.shadow).unshadow = t
      ∧ (∀ nm : String, (TypeVarT.mk nm none).unshadow = TypeVarT.mk nm none) := by
  refine ⟨rfl, ?_, rfl, fun nm => rfl⟩
  intro h
  have hs := congrArg sizeOf h
  simp [TypeVarT.shadow] at hs
  omega

/-- Log record of packages/lang/src/log.ts (level and reason; the
optional ref field is not used by the claims). -/
structure GLog where
  level : String
  reason : String

/-- Vec.fn, the accessor function of a Vec value: it reads
this.items[index] and throws an Error 'Index out of range' when the
lookup is undefined; in range it returns the item wrapped by withLog
with no log entries. -/
def vecFn (items : List Value) (index : Int) : Except String (Value × List GLog) :=
  if h : 0 ≤ index ∧ index.toNat < items.length then
    .ok (items.get ⟨index.toNat, h.2⟩, [])
  else
    .error "Index out of range"

/-- C8 counterexample: accessing Vec([NumType]) at index 1 throws the
fatal Error 'Index out of range'; it does not return a Never value
with a warning diagnostic. -/
theorem claim_C8_counterexample :
    vecFn [numTypeV] 1 = .error "Index out of range" := by
  simp [vecFn]

/-- C8 (amended): an out-of-range vector access is fatal, throwing
'Index out of range', while an in-range access returns the item with
no diagnostics. -/
theorem claim_C8_vec_index_fatal (items : List Value) (index : Int)
    (hout : ¬(0 ≤ index ∧ index.toNat < items.length)) :
    vecFn items index = .error "Index out of range" := by
  simp [vecFn, hout]

/-- Witness for C8 at Vec([NumType]) and index 1. -/
theorem claim_C8_vec_index_fatal_witness :
    vecFn [numTypeV] 1 = .error "Index out of range" :=
  claim_C8_vec_index_fatal [numTypeV] 1 (by simp)

end GV

namespace G8

/-- Predicates of the built-in valueTypes of 08_syntaxdev
(TypeNumber / TypeString / TypeIO / TypeFnType / TypeHashMap).  The
host predicates are modelled by their observable behaviour on embedded
values; isFunc is false on every embedded value (no embedded value is
a raw host function). -/
inductive PredKind where
  | isNum
  | isStr
  | isFunc
  | isFnTy
  | isHMap
deriving DecidableEq, Repr

/-- Cast functions of the built-in valueTypes and unions: () => 0,
() => an empty string, () => null, () => 1, the default fnType
builder, () => an empty hashMap, and the Boolean union's
truthiness cast v => !!v. -/
inductive CastKind where
  | toZero
  | toEmptyStr
  | toNull
  | toOne
  | toFnTy
  | toHMap
  | boolCast
deriving DecidableEq, Repr

/-- The Value union of 08_syntaxdev glisp.ts: literal singletons
(null, booleans, numbers as integers, strings), any and unit, custom
singletons (identity modelled by an id tag), fixed vectors (plain
arrays), infVectors, valueTypes (symbol identity as a numeric id, plus
predicate and cast behaviour), unions (with an optional cast),
fnTypes (params either a fixed list or an infVector), hashMaps,
host functions (fn: named params, out, variadic flag, identity id and
body kind) and objects (carrying their valueType id). -/
inductive Value8 where
  | nullV
  | boolV (b : Bool)
  | numV (n : Int)
  | strV (s : String)
  | anyV
  | unitV
  | singleton (id : Nat)
  | arr (items : List Value8)
  | infVector (items : List Value8)
  | valueType (id : Nat) (pred : PredKind) (cast : CastKind)
  | union (items : List Value8) (cast : Option CastKind)
  | fnTypeV (fixedParams : Bool) (params : List Value8) (out : Value8)
  | hashMap (entries : List (String × Value8))
  | fnV (id : Nat) (params : List (String × Value8)) (out : Value8)
      (variadic : Bool) (body : Nat)
  | objV (tyId : Nat) (tag : Nat)

/-- TypeNumber = createValueType('number', isNumber, () => 0). -/
def typeNumber8 : Value8 := .valueType 0 .isNum .toZero

/-- TypeString = createValueType('string', isString, () => ''). -/
def typeString8 : Value8 := .valueType 1 .isStr .toEmptyStr

/-- TypeBoolean = uniteType([false, true], v => !!v); written in its
already-united form. -/
def typeBoolean8 : Value8 := .union [.boolV false, .boolV true] (some .boolCast)

/-- Whether a value is a literal singleton (JS primitive, the
!isObject test). -/
def isPrim8 : Value8 → Bool
  | .nullV => true
  | .boolV _ => true
  | .numV _ => true
  | .strV _ => true
  | _ => false

/-- predicate evaluation for the built-in valueTypes. -/
def predEval : PredKind → Value8 → Bool
  | .isNum, .numV _ => true
  | .isNum, _ => false
  | .isStr, .strV _ => true
  | .isStr, _ => false
  | .isFunc, _ => false
  | .isFnTy, .fnTypeV _ _ _ => true
  | .isFnTy, _ => false
  | .isHMap, .hashMap _ => true
  | .isHMap, _ => false

/-- cast evaluation for the built-in casts. -/
def castEval : CastKind → Value8 → Value8
  | .toZero, _ => .numV 0
  | .toEmptyStr, _ => .strV ""
  | .toNull, _ => .nullV
  | .toOne, _ => .numV 1
  | .toFnTy, _ => .fnTypeV false [.anyV] .anyV
  | .toHMap, _ => .hashMap []
  | .boolCast, v =>
      match v with
      | .nullV => .boolV false
      | .boolV b => .boolV b
      | .numV n => .boolV (n != 0)
      | .strV s => .boolV (s != "")
      | _ => .boolV true

/-- getParamType(fn): values(fn.params), wrapped into an infVector
when the fn is variadic. -/
def getParamType8 (params : List (String × Value8)) (variadic : Bool) :
    (Bool × List Value8) :=
  (!variadic, params.map Prod.snd)

/-- The param shape of a fnType as a Value (Value[] is a plain array,
the variadic shape an infVector), as compareType receives it. -/
def paramsToVal : Bool × List Value8 → Value8
  | (true, l) => .arr l
  | (false, l) => .infVector l

mutual

/-- compareType of 08_syntaxdev, with fuel (the source recursion has
no structural measure; every recursive call consumes one unit, and the
claims are settled at explicit fuel).  Literal supertypes compare by
JS ===; arrays need the candidate at least as long and pairwise
comparison over the supertype length; any accepts everything; unit
only unit; valueTypes test their predicate, or symbol identity when
not in instance mode; infVectors replicate their last item to match
the candidate length; unions need every candidate member (a non-union
candidate being its own single member) below some member; fnTypes
normalize the candidate (a fn contributes its parameter shape, any
other value an empty parameter list and itself as output) and compare
params and output with isSubtypeOf; fn and singleton supertypes
compare by identity; hashMap and object supertypes throw (modelled as
false at the comparison boundary, a branch no claim exercises). -/
def compareTypeF : Nat → Value8 → Value8 → Bool → Bool
  | 0, _, _, _ => false
  | fuel + 1, a, b, onlyInstance =>
      match b with
      | .anyV => true
      | .unitV => match a with | .unitV => true | _ => false
      | .nullV => match a with | .nullV => true | _ => false
      | .boolV bb => match a with | .boolV ab => ab == bb | _ => false
      | .numV bn => match a with | .numV an => an == bn | _ => false
      | .strV bs => match a with | .strV as => as == bs | _ => false
      | .arr bitems =>
          (match a with
           | .arr aitems =>
               decide (bitems.length ≤ aitems.length)
                 && cmpPairsF fuel aitems bitems onlyInstance
           | _ => false)
      | .infVector bitems =>
          (match a with
           | .infVector aitems =>
               (match bitems.getLast? with
                | none => aitems.isEmpty
                | some bLast =>
                    decide (bitems.length ≤ aitems.length)
                      && cmpPairsF fuel aitems
                          (bitems ++ List.replicate
                            (aitems.length - bitems.length) bLast) onlyInstance)
           | .arr aitems =>
               (match bitems.getLast? with
                | none => false
                | some bLast =>
                    decide (bitems.length - 1 ≤ aitems.length)
                      && cmpPairsF fuel aitems
                          (bitems.take (bitems.length - 1)
                            ++ List.replicate
                                (aitems.length - (bitems.length - 1)) bLast)
                          onlyInstance)
           | _ => false)
      | .valueType bid bpred _ =>
          if onlyInstance then predEval bpred a
          else
            predEval bpred a
              || (match a with
                  | .valueType aid _ _ => aid == bid
                  | _ => false)
      | .union bitems _ =>
          (match a with
           | .union aitems _ => unionAllF fuel aitems bitems onlyInstance
           | x => unionAllF fuel [x] bitems onlyInstance)
      | .fnTypeV bfixed bparams bout =>
          (match a with
           | .fnV _ aparams aout avariadic _ =>
               compareTypeF fuel (paramsToVal (getParamType8 aparams avariadic))
                   (paramsToVal (bfixed, bparams)) false
                 && compareTypeF fuel aout bout false
           | x =>
               compareTypeF fuel (.arr []) (paramsToVal (bfixed, bparams)) false
                 && compareTypeF fuel x bout false)
      | .fnV bid _ _ _ _ =>
          (match a with | .fnV aid _ _ _ _ => aid == bid | _ => false)
      | .singleton bid =>
          (match a with | .singleton aid => aid == bid | _ => false)
      | .hashMap _ => false
      | .objV _ _ => false

/-- everyByPair over the overlapping prefix. -/
def cmpPairsF : Nat → List Value8 → List Value8 → Bool → Bool
  | 0, _, _, _ => false
  | _ + 1, _, [], _ => true
  | _ + 1, [], _, _ => true
  | fuel + 1, a :: as, b :: bs, onlyInstance =>
      compareTypeF fuel a b onlyInstance && cmpPairsF fuel as bs onlyInstance

/-- Every candidate member finds a supertype member. -/
def unionAllF : Nat → List Value8 → List Value8 → Bool → Bool
  | 0, _, _, _ => false
  | _ + 1, [], _, _ => true
  | fuel + 1, a :: as, bs, onlyInstance =>
      unionAnyF fuel a bs onlyInstance && unionAllF fuel as bs onlyInstance

/-- Some supertype member accepts the candidate. -/
def unionAnyF : Nat → Value8 → List Value8 → Bool → Bool
  | 0, _, _, _ => false
  | _ + 1, _, [], _ => false
  | fuel + 1, a, b :: bs, onlyInstance =>
      compareTypeF fuel a b onlyInstance || unionAnyF fuel a bs onlyInstance

end

/-- isSubtypeOf of 08_syntaxdev (compareType without instance mode). -/
def isSubtypeOf8 (fuel : Nat) (a b : Value8) : Bool :=
  compareTypeF fuel a b false

/-- isInstanceOf of 08_syntaxdev. -/
def isInstanceOf8 (fuel : Nat) (a b : Value8) : Bool :=
  compareTypeF fuel a b true

/-- One inner-loop probe of uniteType: compare the surviving items at
indices a and b; a supertype at a eliminates b, a supertype at b
eliminates a (signalling break). -/
def innerStep (fuel a b : Nat) (items : List (Option Value8)) :
    List (Option Value8) × Bool :=
  match items.get? a, items.get? b with
  | some (some aItem), some (some bItem) =>
      if isSubtypeOf8 fuel bItem aItem then (items.set b none, false)
      else if isSubtypeOf8 fuel aItem bItem then (items.set a none, true)
      else (items, false)
  | _, _ => (items, false)

/-- The inner b-loop of uniteType, from index b while cnt iterations
remain, stopping early when the a item is eliminated. -/
def innerLoop (fuel a : Nat) : Nat → Nat → List (Option Value8) → List (Option Value8)
  | _, 0, items => items
  | b, cnt + 1, items =>
      let r := innerStep fuel a b items
      if r.2 then r.1 else innerLoop fuel a (b + 1) cnt r.1

/-- The outer a-loop of uniteType: for a in [0, items.length - 1), run
the inner loop from a + 1 when the a item is still present. -/
def outerLoop (fuel : Nat) : Nat → Nat → List (Option Value8) → List (Option Value8)
  | 0, _, items => items
  | cnt + 1, a, items =>
      match items.get? a with
      | some (some _) =>
          outerLoop fuel cnt (a + 1)
            (innerLoop fuel a (a + 1) (items.length - (a + 1)) items)
      | _ => outerLoop fuel cnt (a + 1) items

/-- uniteType of 08_syntaxdev: flatten union operands, eliminate
subsumed members by the pairwise loops, then — as written in the
source — return a union over the survivors whenever at least one
remains (a single survivor still yields a one-member union), and the
undefined uniqItems[0] (here none) when none remain. -/
def uniteType8 (fuel : Nat) (types : List Value8) (cast : Option CastKind) :
    Option Value8 :=
  let items : List (Option Value8) := types.flatMap (fun t =>
    match t with
    | .union is _ => is.map some
    | x => [some x])
  let items2 :=
    if 2 ≤ items.length then outerLoop fuel (items.length - 1) 0 items else items
  let uniq := items2.filterMap id
  if 0 < uniq.length then some (.union uniq cast) else uniq.head?

/-- C4 at the failing input: uniting Number with Number flattens to
two copies, subsumption eliminates one, and uniteType then returns a
one-member union {kind:'union', items:[Number]} instead of collapsing
to Number (the source returns the union whenever at least one member
survives, and would return the undefined uniqItems[0] when none do);
the second conjunct shows the flatten-and-fold part behaving as the
claim describes on a nested-union operand. -/
theorem claim_C4_uniteType_no_collapse :
    uniteType8 100 [typeNumber8, typeNumber8] none
        = some (.union [typeNumber8] none)
      ∧ uniteType8 100 [.union [.numV 1, .numV 2] none, .numV 3] none
          = some (.union [.numV 1, .numV 2, .numV 3] none) :=
  ⟨rfl, rfl⟩

/-- Log of 08_syntaxdev: level and reason. -/
structure Log8 where
  level : String
  reason : String
deriving DecidableEq, Repr

/-- The expression nodes of 08_syntaxdev needed by the parameter
assignment claims: value nodes and call (list) nodes; symbol, scope,
vector and hashMap nodes (and the parent-link symbol resolution) never
arise in the expressions these claims evaluate and are left out of the
grammar. -/
inductive Exp8 where
  | value (v : Value8)
  | listE (items : List Exp8)

/-- Space-joined rendering of a list of strings. -/
def joinSpace : List String → String
  | [] => ""
  | [s] => s
  | s :: rest => s ++ " " ++ joinSpace rest

/-- retrieveValueName for valueTypes: the key under which the type's
origExp sits in GlobalScope (ids fixed by the embedding: 0 Number,
1 String, 2 FnType, 3 IO; TypeHashMap has no global binding). -/
def valueName8 : Nat → Option String
  | 0 => some "Number"
  | 1 => some "String"
  | 2 => some "FnType"
  | 3 => some "IO"
  | _ => none

/-- retrieveValueName for custom singletons: the GlobalScope bindings
LT, EQ and GT (ids 0, 1 and 2 in the embedding). -/
def singletonName8 : Nat → Option String
  | 0 => some "LT"
  | 1 => some "EQ"
  | 2 => some "GT"
  | _ => none

/-- printValue of 08_syntaxdev, with fuel (exhaustion yields the empty
string; the claims print shallow values only).  retrieveValueName
resolves a valueType's or singleton's display name through its origExp
back-pointer into GlobalScope; the embedding resolves it through the
id tables of the built-in global values. -/
def printValueF : Nat → Value8 → String
  | 0, _ => ""
  | fuel + 1, v =>
      match v with
      | .nullV => "null"
      | .boolV b => if b then "true" else "false"
      | .numV n => toString n
      | .strV s => "\"" ++ s ++ "\""
      | .anyV => "*"
      | .unitV => "()"
      | .arr items => "[" ++ joinSpace (items.map (printValueF fuel)) ++ "]"
      | .infVector items =>
          "[" ++ joinSpace (items.map (printValueF fuel)) ++ "...]"
      | .valueType id _ _ => (valueName8 id).getD "<valueType>"
      | .union items _ =>
          "(| " ++ joinSpace (items.map (printValueF fuel)) ++ ")"
      | .singleton id => (singletonName8 id).getD "<singleton>"
      | .fnTypeV fixedParams params out =>
          "(-> " ++ printValueF fuel (paramsToVal (fixedParams, params)) ++ " "
            ++ printValueF fuel out ++ ")"
      | .fnV _ _ _ _ _ => "<JS Function>"
      | .hashMap entries =>
          "\x7b" ++ joinSpace (entries.map
            (fun kv => kv.1 ++ ": " ++ printValueF fuel kv.2)) ++ "\x7d"
      | .objV _ _ => "<object>"

/-- assertValueType of 08_syntaxdev, with fuel on the array recursion
(exhaustion returns the value unchanged; the claims only type shallow
values).  Primitives and the type-like kinds pass through; a fn yields
its fnType (params wrapped into an infVector when variadic); hashMaps
and objects yield Any. -/
def assertValueTypeF : Nat → Value8 → Value8
  | 0, v => v
  | fuel + 1, v =>
      match v with
      | .arr items => .arr (items.map (assertValueTypeF fuel))
      | .fnV _ params out variadic _ =>
          .fnTypeV (!variadic) (params.map Prod.snd) out
      | .hashMap _ => .anyV
      | .objV _ _ => .anyV
      | x => x

mutual

/-- castType of 08_syntaxdev, with fuel.  A primitive type is its own
cast; an array type casts pairwise against the value's items (Unit at
missing positions); a valueType keeps an instance and otherwise
applies its cast; a fnType casts its output from Unit; a union with a
cast behaves like a valueType and one without casts its first member
from Unit (an empty memberless union would make the JS crash later
when the result is printed, modelled as an error); a singleton is its
own cast; every other kind throws 'Not yet implemented'. -/
def castTypeF : Nat → Value8 → Value8 → Except String Value8
  | 0, _, _ => .error "fuel"
  | fuel + 1, type, value =>
      if isPrim8 type then .ok type
      else
        match type with
        | .arr ts =>
            let vs := match value with | .arr vs => vs | _ => []
            do
              let cs ← castArrF fuel ts vs
              .ok (.arr cs)
        | .valueType _ _ cast =>
            .ok (if isInstanceOf8 fuel value type then value else castEval cast value)
        | .fnTypeV _ _ out => castTypeF fuel out .unitV
        | .union _ (some cast) =>
            .ok (if isInstanceOf8 fuel value type then value else castEval cast value)
        | .union items none =>
            (match items.head? with
             | some t0 => castTypeF fuel t0 .unitV
             | none => .error "TypeError")
        | .singleton _ => .ok type
        | _ => .error "Not yet implemented"

/-- The array case of castType: pairwise casts with the value items,
Unit where the value runs short. -/
def castArrF : Nat → List Value8 → List Value8 → Except String (List Value8)
  | 0, _, _ => .error "fuel"
  | _ + 1, [], _ => .ok []
  | fuel + 1, t :: ts, vs =>
      do
        let c ← castTypeF fuel t (vs.headD .unitV)
        let cs ← castArrF fuel ts vs.tail
        .ok (c :: cs)

end

/-- The castTypeFn host function of 08_syntaxdev (bound as ':' in
GlobalScope): params {type: Any, value: Any}, out Any, body tag 0. -/
def castTypeFn8 : Value8 := .fnV 50 [("type", .anyV), ("value", .anyV)] .anyV false 0

/-- The '+' host function of GlobalScope: variadic over Number,
body tag 1. -/
def plusFn8 : Value8 := .fnV 51 [("xs", typeNumber8)] typeNumber8 true 1

/-- The isa host function of GlobalScope: params {value: Any,
type: Any}, out Boolean, body tag 2. -/
def isaFn8 : Value8 := .fnV 52 [("value", .anyV), ("type", .anyV)] typeBoolean8 false 2

/-- createExpList([castTypeFn, wrapValue(toType), fromItem], false):
the cast-call node castExpParam wraps a non-subtype argument in. -/
def castCallE (t : Value8) (e : Exp8) : Exp8 :=
  .listE [.value castTypeFn8, .value t, e]

/-- The numeric reading the host '+' applies to its (cast-guaranteed)
arguments; a non-numeric argument never survives the cast pipeline and
is modelled as an evaluation error (JS would silently produce NaN). -/
def numListF : List Value8 → Except String (List Int)
  | [] => .ok []
  | .numV n :: vs => do
      let ns ← numListF vs
      .ok (n :: ns)
  | _ :: _ => .error "NaN"

mutual

/-- evalExp of 08_syntaxdev over the value/list grammar, with fuel.
A value node is its value with no logs.  A list node is inspected:
the grammar has no symbol nodes, so a nonempty list is always an
application (inspectExpList throws on an empty list, modelled as an
error); the head is evaluated, and when it is a fn the arguments are
cast against its parameter shape and the host body runs (its eval and
log calls contribute the params and exec logs, in source order
fnLogs ++ castLogs ++ paramsLogs ++ execLogs); a non-fn head is
returned as the result with the head's logs. -/
def evalExpF : Nat → Exp8 → Except String (Value8 × List Log8)
  | 0, _ => .error "fuel"
  | _ + 1, .value v => .ok (v, [])
  | _ + 1, .listE [] => .error ""
  | fuel + 1, .listE (first :: rest) =>
      do
        let (fn, fnLogs) ← evalExpF fuel first
        match fn with
        | .fnV _ ps _ variadic body =>
            do
              let (casted, castLogs) ← castExpParamF fuel (getParamType8 ps variadic) rest
              let (res, bodyLogs) ← evalBodyF fuel body casted
              .ok (res, fnLogs ++ castLogs ++ bodyLogs)
        | x => .ok (x, fnLogs)

/-- castExpParam of 08_syntaxdev, with fuel.  A fixed parameter array
longer than the argument list logs one 'Too short aguments' error (the
source typo) and nothing else before the cast loop; an infVector shape
first pads the arguments up to its minimum length (logging 'Too short
arguments') with wrapped castType(·, null) values, then replicates its
last item over the variadic positions (an empty infVector makes the JS
crash on the undefined item, modelled as an error). -/
def castExpParamF : Nat → Bool × List Value8 → List Exp8 →
    Except String (List Exp8 × List Log8)
  | 0, _, _ => .error "fuel"
  | fuel + 1, (true, toL), frm =>
      do
        let tooShort : List Log8 :=
          if frm.length < toL.length then [⟨"error", "Too short aguments"⟩] else []
        let (casted, castLogs) ← castLoopF fuel toL frm
        .ok (casted, tooShort ++ castLogs)
  | fuel + 1, (false, toItems), frm =>
      match toItems.getLast? with
      | none => .error "TypeError"
      | some bLast =>
          let minLength := toItems.length - 1
          do
            let (frm2, shortLogs) ←
              if frm.length < minLength then
                do
                  let padded ← padArgsF fuel toItems frm minLength
                  pure (padded, [(⟨"error", "Too short arguments"⟩ : Log8)])
              else
                pure (frm, ([] : List Log8))
            let to2 := toItems.take minLength
              ++ List.replicate (frm2.length - minLength) bLast
            let (casted, castLogs) ← castLoopF fuel to2 frm2
            .ok (casted, shortLogs ++ castLogs)

/-- The argument-padding while loop of castExpParam's infVector branch:
push wrapValue(castType(to.items[from.length], null)) until the
minimum length is reached. -/
def padArgsF : Nat → List Value8 → List Exp8 → Nat → Except String (List Exp8)
  | 0, _, _, _ => .error "fuel"
  | fuel + 1, toItems, frm, minLength =>
      if frm.length < minLength then
        do
          let v ← castTypeF fuel (toItems.getD frm.length .unitV) .nullV
          padArgsF fuel toItems (frm ++ [.value v]) minLength
      else
        .ok frm

/-- The cast loop of castExpParam: for each parameter type, the
argument at that position (a Unit value node when missing) passes
through when its asserted type is a subtype, and is otherwise wrapped
in a cast call with a 'Type X cannot be casted to Y' error log. -/
def castLoopF : Nat → List Value8 → List Exp8 →
    Except String (List Exp8 × List Log8)
  | 0, _, _ => .error "fuel"
  | _ + 1, [], _ => .ok ([], [])
  | fuel + 1, toType :: toRest, frm =>
      do
        let fromItem := frm.headD (.value .unitV)
        let fromType ← assertExpTypeF fuel fromItem
        let (castedRest, logsRest) ← castLoopF fuel toRest frm.tail
        if isSubtypeOf8 fuel fromType toType then
          .ok (fromItem :: castedRest, logsRest)
        else
          .ok (castCallE toType fromItem :: castedRest,
            ⟨"error", "Type " ++ printValueF fuel fromType
              ++ " cannot be casted to " ++ printValueF fuel toType⟩ :: logsRest)

/-- assertExpType of 08_syntaxdev over the value/list grammar, with
fuel: a value node asserts its value's type; a nonempty list is an
application whose type is the head fn's out (or the head's own
asserted type when the head is not a fn); an empty list makes
inspectExpList throw. -/
def assertExpTypeF : Nat → Exp8 → Except String Value8
  | 0, _ => .error "fuel"
  | fuel + 1, .value v => .ok (assertValueTypeF fuel v)
  | _ + 1, .listE [] => .error ""
  | fuel + 1, .listE (first :: _) =>
      do
        let (fn, _) ← evalExpF fuel first
        match fn with
        | .fnV _ _ out _ _ => .ok out
        | _ => assertExpTypeF fuel first

/-- The host fn bodies by tag.  Tag 0 is castTypeFn: evaluate the type
and value arguments, cast, and log 'Value X is converted to Y'.  Tag 1
is '+': evaluate every argument and sum.  Tag 2 is isa: evaluate both
arguments and test isInstanceOf.  A body applied to the wrong argument
count would crash the JS on an undefined argument (modelled as an
error), as would an unknown tag. -/
def evalBodyF : Nat → Nat → List Exp8 → Except String (Value8 × List Log8)
  | 0, _, _ => .error "fuel"
  | fuel + 1, 0, args =>
      (match args with
       | [typeE, valueE] =>
           do
             let (t, logsT) ← evalExpF fuel typeE
             let (v, logsV) ← evalExpF fuel valueE
             let casted ← castTypeF fuel t v
             .ok (casted, logsT ++ logsV ++
               [⟨"info", "Value " ++ printValueF fuel v ++ " is converted to "
                 ++ printValueF fuel casted⟩])
       | _ => .error "TypeError")
  | fuel + 1, 1, args =>
      do
        let (vs, logs) ← evalArgsF fuel args
        let ns ← numListF vs
        .ok (.numV (ns.foldl (fun a b => a + b) 0), logs)
  | fuel + 1, 2, args =>
      (match args with
       | [aE, bE] =>
           do
             let (a, logsA) ← evalExpF fuel aE
             let (b, logsB) ← evalExpF fuel bE
             .ok (.boolV (isInstanceOf8 fuel a b), logsA ++ logsB)
       | _ => .error "TypeError")
  | _ + 1, _, _ => .error "unknown host function"

/-- Sequential evaluation of argument expressions, collecting logs in
order (the paramsLogs of the body's eval calls). -/
def evalArgsF : Nat → List Exp8 → Except String (List Value8 × List Log8)
  | 0, _ => .error "fuel"
  | _ + 1, [] => .ok ([], [])
  | fuel + 1, e :: es =>
      do
        let (v, logs) ← evalExpF fuel e
        let (vs, logsRest) ← evalArgsF fuel es
        .ok (v :: vs, logs ++ logsRest)

end

/-- Monad-bind reduction for Except on an ok value. -/
theorem except_bind_ok {α β : Type} (a : α) (f : α → Except String β) :
    (Except.ok a >>= f : Except String β) = f a := rfl

/-- The printed form of each built-in cast's result on Unit: the
parameter type's own default value as the info log renders it. -/
def castDefaultStr : CastKind → String
  | .toZero => "0"
  | .toEmptyStr => "\"\""
  | .toNull => "null"
  | .toOne => "1"
  | .toFnTy => "(-> [*...] *)"
  | .toHMap => "\x7b\x7d"
  | .boolCast => "true"

/-- assertValueType is the identity on primitives. -/
theorem assertValueTypeF_prim {p : Value8} (hp : isPrim8 p = true) {f : Nat}
    (hf : 0 < f) : assertValueTypeF f p = p := by
  obtain ⟨g, rfl⟩ : ∃ g, f = g + 1 := ⟨f - 1, by omega⟩
  cases p <;> simp_all [isPrim8, assertValueTypeF]

/-- Comparing a primitive against a valueType runs the predicate. -/
theorem compareTypeF_prim_vt {p : Value8} (hp : isPrim8 p = true)
    (id : Nat) (pred : PredKind) (c : CastKind) {f : Nat} (hf : 0 < f) :
    compareTypeF f p (.valueType id pred c) false = predEval pred p := by
  obtain ⟨g, rfl⟩ : ∃ g, f = g + 1 := ⟨f - 1, by omega⟩
  cases p <;> simp_all [isPrim8, compareTypeF]

/-- Unit is not a subtype of any built-in valueType: every predicate
rejects the unit object and unit is not a valueType itself. -/
theorem compareTypeF_unit_vt (id : Nat) (pred : PredKind) (c : CastKind) {f : Nat}
    (hf : 0 < f) : compareTypeF f .unitV (.valueType id pred c) false = false := by
  obtain ⟨g, rfl⟩ : ∃ g, f = g + 1 := ⟨f - 1, by omega⟩
  cases pred <;> rfl

/-- assertExpType of a primitive value node is the primitive. -/
theorem assertExpTypeF_prim {p : Value8} (hp : isPrim8 p = true) {f : Nat}
    (hf : 2 ≤ f) : assertExpTypeF f (.value p) = .ok p := by
  obtain ⟨g, rfl⟩ : ∃ g, f = g + 1 := ⟨f - 1, by omega⟩
  show Except.ok (assertValueTypeF g p) = _
  rw [assertValueTypeF_prim hp (by omega)]

/-- assertExpType of the Unit value node is Unit. -/
theorem assertExpTypeF_unit {f : Nat} (hf : 2 ≤ f) :
    assertExpTypeF f (.value .unitV) = .ok .unitV := by
  obtain ⟨g, rfl⟩ : ∃ g, f = g + 2 := ⟨f - 2, by omega⟩
  rfl

/-- printValue of Unit. -/
theorem printValueF_unit {f : Nat} (hf : 0 < f) :
    printValueF f .unitV = "()" := by
  obtain ⟨g, rfl⟩ : ∃ g, f = g + 1 := ⟨f - 1, by omega⟩
  rfl

/-- printValue of a valueType resolves its GlobalScope name. -/
theorem printValueF_vt (id : Nat) (pred : PredKind) (c : CastKind) {f : Nat}
    (hf : 0 < f) : printValueF f (.valueType id pred c)
      = (valueName8 id).getD "<valueType>" := by
  obtain ⟨g, rfl⟩ : ∃ g, f = g + 1 := ⟨f - 1, by omega⟩
  rfl

/-- A cast-error log never reads 'Too short aguments': the strings
differ at their second character. -/
theorem castLog_ne_tooShort (a b : String) :
    "Type " ++ a ++ " cannot be casted to " ++ b ≠ "Too short aguments" := by
  intro h
  have h2 := congrArg (fun s => s.data.get? 1) h
  simp [String.data_append] at h2

/-- The cast loop of castExpParam on valueType parameters and
primitive value-node arguments: it succeeds, yields one casted entry
per parameter, logs nothing that reads 'Too short aguments', and every
missing position (beyond the supplied arguments) becomes a cast call
on the Unit placeholder node. -/
theorem castLoopF_spec (toL : List Value8) :
    ∀ (frm : List Exp8) (fuel : Nat),
      (∀ t ∈ toL, ∃ id pred cast, t = Value8.valueType id pred cast) →
      (∀ e ∈ frm, ∃ p, e = Exp8.value p ∧ isPrim8 p = true) →
      toL.length + 2 ≤ fuel →
      ∃ casted logs,
        castLoopF fuel toL frm = .ok (casted, logs)
          ∧ casted.length = toL.length
          ∧ (∀ l ∈ logs, l.reason ≠ "Too short aguments")
          ∧ casted.drop frm.length
              = (toL.drop frm.length).map (fun t => castCallE t (.value .unitV)) := by
  induction toL with
  | nil =>
      intro frm fuel _ _ hfuel
      obtain ⟨f, rfl⟩ : ∃ f, fuel = f + 1 := ⟨fuel - 1, by omega⟩
      exact ⟨[], [], rfl, rfl, by simp, by simp⟩
  | cons t ts ih =>
      intro frm fuel hto hfrm hfuel
      simp only [List.length_cons] at hfuel
      obtain ⟨f2, rfl⟩ : ∃ f2, fuel = f2 + 1 + 1 + 1 := ⟨fuel - 3, by omega⟩
      obtain ⟨id, pred, cast, rfl⟩ := hto t (by simp)
      have hts : ∀ u ∈ ts, ∃ id pred cast, u = Value8.valueType id pred cast :=
        fun u hu => hto u (by simp [hu])
      cases frm with
      | nil =>
          obtain ⟨cs, ls, hrun, hlen, hlogs, hdrop⟩ :=
            ih [] (f2 + 1 + 1) hts (by simp) (by omega)
          refine ⟨castCallE (.valueType id pred cast) (.value .unitV) :: cs,
            ⟨"error", "Type " ++ printValueF (f2 + 1 + 1) .unitV
              ++ " cannot be casted to "
              ++ printValueF (f2 + 1 + 1) (.valueType id pred cast)⟩ :: ls,
            ?_, by simp [hlen], ?_, ?_⟩
          · simp only [castLoopF, List.headD, List.tail]
            rw [assertExpTypeF_unit (by omega)]
            simp only [except_bind_ok]
            rw [hrun]
            simp only [except_bind_ok]
            rw [isSubtypeOf8, compareTypeF_unit_vt id pred cast (by omega)]
            simp
          · intro l hl
            rcases List.mem_cons.mp hl with hl | hl
            · subst hl
              exact castLog_ne_tooShort _ _
            · exact hlogs l hl
          · simp only [List.length_nil, List.drop_zero] at hdrop ⊢
            simp [hdrop]
      | cons e es =>
          obtain ⟨p, rfl, hp⟩ := hfrm e (by simp)
          have hes : ∀ x ∈ es, ∃ q, x = Exp8.value q ∧ isPrim8 q = true :=
            fun x hx => hfrm x (by simp [hx])
          obtain ⟨cs, ls, hrun, hlen, hlogs, hdrop⟩ :=
            ih es (f2 + 1 + 1) hts hes (by omega)
          cases hsub : predEval pred p with
          | true =>
              refine ⟨Exp8.value p :: cs, ls, ?_, by simp [hlen], hlogs, ?_⟩
              · simp only [castLoopF, List.headD, List.tail]
                rw [assertExpTypeF_prim hp (by omega)]
                simp only [except_bind_ok]
                rw [hrun]
                simp only [except_bind_ok]
                rw [isSubtypeOf8, compareTypeF_prim_vt hp id pred cast (by omega),
                  hsub]
                simp
              · simpa using hdrop
          | false =>
              refine ⟨castCallE (.valueType id pred cast) (Exp8.value p) :: cs,
                ⟨"error", "Type " ++ printValueF (f2 + 1 + 1) p
                  ++ " cannot be casted to "
                  ++ printValueF (f2 + 1 + 1) (.valueType id pred cast)⟩ :: ls,
                ?_, by simp [hlen], ?_, ?_⟩
              · simp only [castLoopF, List.headD, List.tail]
                rw [assertExpTypeF_prim hp (by omega)]
                simp only [except_bind_ok]
                rw [hrun]
                simp only [except_bind_ok]
                rw [isSubtypeOf8, compareTypeF_prim_vt hp id pred cast (by omega),
                  hsub]
                simp
              · intro l hl
                rcases List.mem_cons.mp hl with hl | hl
                · subst hl
                  exact castLog_ne_tooShort _ _
                · exact hlogs l hl
              · simpa using hdrop

/-- C7: applying a function whose parameter shape is a fixed (no-rest)
array of valueTypes to fewer arguments than its parameter count makes
castExpParam emit exactly one 'Too short aguments' diagnostic (the
recoverable arity error, with the source's typo), return one casted
entry per parameter, and synthesize every missing position as a cast
call on the Unit placeholder; evaluating such a synthesized cast call
produces the parameter type's own default value (its cast applied to
Unit) together with the conversion info log; and a concrete
two-required-parameter application with one argument — castTypeFn
applied to Number alone — still produces the value 0 (Number's
default) alongside the single arity diagnostic. -/
theorem claim_C7_too_few_args (toL : List Value8) (frm : List Exp8) (fuel : Nat)
    (hto : ∀ t ∈ toL, ∃ id pred cast, t = Value8.valueType id pred cast)
    (hfrm : ∀ e ∈ frm, ∃ p, e = Exp8.value p ∧ isPrim8 p = true)
    (hlen : frm.length < toL.length)
    (hfuel : toL.length + 3 ≤ fuel) :
    (∃ casted logs,
        castExpParamF fuel (true, toL) frm = .ok (casted, logs)
          ∧ (logs.filter (fun l => l.reason == "Too short aguments")).length = 1
          ∧ casted.length = toL.length
          ∧ casted.drop frm.length
              = (toL.drop frm.length).map (fun t => castCallE t (.value .unitV)))
      ∧ (∀ id pred cast,
          evalExpF 20 (castCallE (.valueType id pred cast) (.value .unitV))
            = .ok (castEval cast .unitV,
                [⟨"info", "Value () is converted to " ++ castDefaultStr cast⟩]))
      ∧ evalExpF 30 (.listE [.value castTypeFn8, .value typeNumber8])
          = .ok (.numV 0, [⟨"error", "Too short aguments"⟩,
              ⟨"info", "Value () is converted to 0"⟩]) := by
  refine ⟨?_, ?_, rfl⟩
  · obtain ⟨f, rfl⟩ : ∃ f, fuel = f + 1 := ⟨fuel - 1, by omega⟩
    obtain ⟨cs, ls, hrun, hlen2, hlogs, hdrop⟩ :=
      castLoopF_spec toL frm f hto hfrm (by omega)
    refine ⟨cs, ⟨"error", "Too short aguments"⟩ :: ls, ?_, ?_, hlen2, hdrop⟩
    · simp only [castExpParamF, if_pos hlen]
      rw [hrun]
      simp [except_bind_ok]
    · simp only [List.filter_cons]
      have hh : (({level := "error", reason := "Too short aguments"} : Log8).reason
          == "Too short aguments") = true := by rfl
      rw [hh]
      have : ls.filter (fun l => l.reason == "Too short aguments") = [] := by
        refine List.filter_eq_nil.mpr ?_
        intro l hl
        simpa using hlogs l hl
      simp [this]
  · intro id pred cast
    cases pred <;> cases cast <;> rfl

/-- C7 witness: castExpParam at the two-Number-parameter shape with a
single numeric argument. -/
theorem claim_C7_too_few_args_witness :
    ∃ casted logs,
      castExpParamF 10 (true, [typeNumber8, typeNumber8]) [.value (.numV 1)]
          = .ok (casted, logs)
        ∧ (logs.filter (fun l => l.reason == "Too short aguments")).length = 1
        ∧ casted.length = ([typeNumber8, typeNumber8] : List Value8).length
        ∧ casted.drop 1 = [castCallE typeNumber8 (.value .unitV)] := by
  have h := claim_C7_too_few_args [typeNumber8, typeNumber8] [.value (.numV 1)] 10
    (by
      intro t ht
      rcases List.mem_cons.mp ht with rfl | ht2
      · exact ⟨0, .isNum, .toZero, rfl⟩
      · rcases List.mem_cons.mp ht2 with rfl | ht3
        · exact ⟨0, .isNum, .toZero, rfl⟩
        · simp at ht3)
    (by
      intro e he
      rcases List.mem_cons.mp he with rfl | he2
      · exact ⟨.numV 1, rfl, rfl⟩
      · simp at he2)
    (by simp) (by simp)
  simpa using h.1

end G8

namespace P0

/-- The predicates of the five infUnion type constants of part_000
(TypeNumber, TypeInt, TypePosNumber, TypeNat, TypeString), identified
by fixed ids 0-4; non-integral JS numbers are not modelled (every
number literal the claims evaluate is integral). -/
def infUnionPredEval : Nat → Int → Bool → Bool
  | 0, _, isNum => isNum
  | 1, _, isNum => isNum
  | 2, n, isNum => isNum && decide (0 ≤ n)
  | 3, n, isNum => isNum && decide (0 ≤ n)
  | _, _, _ => false

/-- The supersets field of the infUnion constants: Int and PosNumber
list Number, Nat lists Int and PosNumber. -/
def infUnionSupersets : Nat → List Nat
  | 1 => [0]
  | 2 => [0]
  | 3 => [1, 2]
  | _ => []

/-- The GlobalScope names of the infUnion constants (original points
at the wrapping value exp; getName finds its key in the let hashMap). -/
def infUnionName : Nat → Option String
  | 0 => some "Number"
  | 1 => some "Int"
  | 2 => some "PosNumber"
  | 3 => some "Nat"
  | 4 => some "String"
  | _ => none

/-- The Value union of part_000: primitives (null, booleans, numbers
as integers, strings), plain arrays, All, Void, restVectors, hashMaps,
fns (host body identity as a tag, with their fnType's params/rest
flag/out/lazyEval inlined), unions (the original back-pointer modelled
by its resolved GlobalScope name), infUnions (identity and host
predicate resolved through the id tables above) and standalone
fnTypes. -/
inductive Val0 where
  | nullv
  | boolv (b : Bool)
  | numv (n : Int)
  | strv (s : String)
  | vecv (items : List Val0)
  | allv
  | voidv
  | restVector (items : List Val0)
  | hashMapv (entries : List (String × Val0))
  | fnv (body : Nat) (params : List Val0) (paramsRest : Bool) (out : Val0)
      (lazyEval : List Bool)
  | unionv (orig : Option String) (items : List Val0)
  | infUnion (id : Nat)
  | fnTypeV (params : List Val0) (paramsRest : Bool) (out : Val0)
      (lazyEval : List Bool)

/-- isValuePrim: null, booleans, numbers and strings. -/
def isValuePrim0 : Val0 → Bool
  | .nullv => true
  | .boolv _ => true
  | .numv _ => true
  | .strv _ => true
  | _ => false

/-- The infUnion predicates applied to a modelled prim. -/
def infUnionPred0 (id : Nat) : Val0 → Bool
  | .numv n => infUnionPredEval id n true
  | .strv _ => id == 4
  | _ => false

/-- A ValueFnType's params field (Value[] | ValueRestVector) as a
single Value, the way isEqualValue and containsValue receive it. -/
def paramsVal (ps : List Val0) (rest : Bool) : Val0 :=
  if rest then .restVector ps else .vecv ps

/-- JS truthiness of a Value (the memo check 'evaluated' in exp &&
exp.evaluated): null, false, 0 and the empty string are falsy, every
object truthy. -/
def truthy0 : Val0 → Bool
  | .nullv => false
  | .boolv b => b
  | .numv n => n != 0
  | .strv s => s != ""
  | _ => true

mutual

/-- isEqualValue of part_000, with fuel.  Primitives compare by ===;
arrays and restVectors by length and pairwise equality; hashMaps never
equal anything (the source's isValueHashMap tests type === 'restVector',
a copy-paste bug, so the hashMap arm's guard always fails on a hashMap
and the contrived hashMap-vs-restVector corner it does accept cannot
arise here and is modelled as false); fns by body identity; unions by
item count plus containment of every left item among the right items;
infUnions by identity; fnTypes by out and params (lazyEval ignored,
as in the source). -/
def isEqualValueF : Nat → Val0 → Val0 → Bool
  | 0, _, _ => false
  | fuel + 1, a, b =>
      match a with
      | .nullv => (match b with | .nullv => true | _ => false)
      | .boolv x => (match b with | .boolv y => x == y | _ => false)
      | .numv x => (match b with | .numv y => x == y | _ => false)
      | .strv x => (match b with | .strv y => x == y | _ => false)
      | .vecv xs =>
          (match b with
           | .vecv ys => xs.length == ys.length && eqPairsF fuel xs ys
           | _ => false)
      | .allv => (match b with | .allv => true | _ => false)
      | .voidv => (match b with | .voidv => true | _ => false)
      | .restVector xs =>
          (match b with
           | .restVector ys => xs.length == ys.length && eqPairsF fuel xs ys
           | _ => false)
      | .hashMapv _ => false
      | .fnv abody _ _ _ _ =>
          (match b with | .fnv bbody _ _ _ _ => abody == bbody | _ => false)
      | .unionv _ xs =>
          (match b with
           | .unionv _ ys => xs.length == ys.length && eqAllExistsF fuel xs ys
           | _ => false)
      | .infUnion aid =>
          (match b with | .infUnion bid => aid == bid | _ => false)
      | .fnTypeV aps arest aout _ =>
          (match b with
           | .fnTypeV bps brest bout _ =>
               isEqualValueF fuel aout bout
                 && isEqualValueF fuel (paramsVal aps arest) (paramsVal bps brest)
           | _ => false)

/-- zipShorter + every isEqualValue (truncates to the shorter list). -/
def eqPairsF : Nat → List Val0 → List Val0 → Bool
  | 0, _, _ => false
  | _ + 1, [], _ => true
  | _ + 1, _ :: _, [] => true
  | fuel + 1, x :: xs, y :: ys => isEqualValueF fuel x y && eqPairsF fuel xs ys

/-- differenceWith(xs, ys, isEqualValue) is empty: every left item has
an equal right item. -/
def eqAllExistsF : Nat → List Val0 → List Val0 → Bool
  | 0, _, _ => false
  | _ + 1, [], _ => true
  | fuel + 1, x :: xs, ys => eqAnyF fuel x ys && eqAllExistsF fuel xs ys

/-- Some right item equals x. -/
def eqAnyF : Nat → Val0 → List Val0 → Bool
  | 0, _, _ => false
  | _ + 1, _, [] => false
  | fuel + 1, x, y :: ys => isEqualValueF fuel x y || eqAnyF fuel x ys

/-- containsValue of part_000, with fuel.  A primitive outer contains
by equality; an array outer contains a not-longer array prefix-wise;
for any other outer a Void inner is contained; Void and fn outers
contain by equality; a restVector contains a same-length restVector or
a long-enough array pairwise; the hashMap arm is governed by the buggy
restVector-testing isValueHashMap and its reachable outcomes reduce to
false (the true corner would crash the JS in entries traversal and
cannot arise here); All contains everything; an infUnion contains
primitives by predicate, unions memberwise, and infUnions by identity
or their declared supersets; a union contains (length permitting) when
some inner member is contained in some outer member; a fnType contains
fnTypes and fns via params and out, and anything else via its out.
The JS identity fast path (outer === inner) is subsumed by these
branches everywhere the claims reach. -/
def containsValueF : Nat → Val0 → Val0 → Bool
  | 0, _, _ => false
  | fuel + 1, outer, inner =>
      if isValuePrim0 outer then isEqualValueF fuel outer inner
      else
        match outer with
        | .vecv os =>
            (match inner with
             | .vecv is2 => decide (is2.length ≤ os.length) && cvPairsF fuel os is2
             | _ => false)
        | outerX =>
            if (match inner with | .voidv => true | _ => false) then true
            else
              match outerX with
              | .voidv => isEqualValueF fuel outerX inner
              | .fnv _ _ _ _ _ => isEqualValueF fuel outerX inner
              | .restVector os =>
                  (match inner with
                   | .restVector is2 =>
                       os.length == is2.length && cvPairsF fuel os is2
                   | .vecv is2 =>
                       decide (os.length - 1 ≤ is2.length) && cvPairsF fuel os is2
                   | _ => false)
              | .hashMapv _ => false
              | .allv => true
              | .infUnion oid =>
                  (match inner with
                   | .unionv _ is2 => cvAllF fuel (.infUnion oid) is2
                   | .infUnion iid =>
                       oid == iid
                         || (infUnionSupersets iid).any
                             (fun s => containsValueF fuel (.infUnion oid) (.infUnion s))
                   | p => if isValuePrim0 p then infUnionPred0 oid p else false)
              | .unionv _ os =>
                  (match inner with
                   | .unionv _ is2 =>
                       decide (is2.length ≤ os.length) && cvSome2F fuel os is2
                   | x => decide (1 ≤ os.length) && cvSome2F fuel os [x])
              | .fnTypeV ops orest oout _ =>
                  (match inner with
                   | .fnTypeV ips irest iout _ =>
                       containsValueF fuel (paramsVal ops orest) (paramsVal ips irest)
                         && containsValueF fuel oout iout
                   | .fnv _ ips irest iout _ =>
                       containsValueF fuel (paramsVal ops orest) (paramsVal ips irest)
                         && containsValueF fuel oout iout
                   | x => containsValueF fuel oout x)
              | _ => false

/-- zipShorter + every containsValue. -/
def cvPairsF : Nat → List Val0 → List Val0 → Bool
  | 0, _, _ => false
  | _ + 1, [], _ => true
  | _ + 1, _ :: _, [] => true
  | fuel + 1, x :: xs, y :: ys => containsValueF fuel x y && cvPairsF fuel xs ys

/-- Every inner item is contained in the outer value. -/
def cvAllF : Nat → Val0 → List Val0 → Bool
  | 0, _, _ => false
  | _ + 1, _, [] => true
  | fuel + 1, o, ii :: iis => containsValueF fuel o ii && cvAllF fuel o iis

/-- Some outer member contains the inner item. -/
def cvSomeF : Nat → List Val0 → Val0 → Bool
  | 0, _, _ => false
  | _ + 1, [], _ => false
  | fuel + 1, o :: os, ii => containsValueF fuel o ii || cvSomeF fuel os ii

/-- Some inner item is contained in some outer member. -/
def cvSome2F : Nat → List Val0 → List Val0 → Bool
  | 0, _, _ => false
  | _ + 1, _, [] => false
  | fuel + 1, os, ii :: iis => cvSomeF fuel os ii || cvSome2F fuel os iis

end

/-- The Exp node kinds of part_000 reachable by the evaluation claims:
value, symbol, list, vector (special list with rest flag) and hashMap
(scope/program nodes do not occur). -/
inductive ExpKind0 where
  | value (v : Val0)
  | symbol (name : String)
  | list (items : List Nat)
  | vector (items : List Nat) (rest : Bool)
  | hashMap (entries : List (String × Nat))

/-- A node of the mutable expression graph: its kind plus the mutable
fields parent, evaluated (the memo), expanded, ref (a symbol's cached
resolution) and dep (the symbols depending on the node; a Set in the
source).  The modelled host bodies only produce values, so expanded
holds a Value. -/
structure Node0 where
  kind : ExpKind0
  parent : Option Nat
  evaluated : Option Val0
  expanded : Option Val0
  ref : Option Nat
  dep : List Nat

/-- A fresh node with empty mutable fields. -/
def node0 (k : ExpKind0) (parent : Option Nat) : Node0 :=
  ⟨k, parent, none, none, none, []⟩

/-- The evaluation state: the node store (JS heap objects keyed by an
id) and the number of times the side-effecting host primitive has
run. -/
structure St0 where
  store : List (Nat × Node0)
  calls : Nat

/-- Node lookup by id. -/
def lookupN : List (Nat × Node0) → Nat → Option Node0
  | [], _ => none
  | kv :: rest, id => if kv.1 == id then some kv.2 else lookupN rest id

/-- In-place node update by id. -/
def updateN (store : List (Nat × Node0)) (id : Nat) (f : Node0 → Node0) :
    List (Nat × Node0) :=
  store.map (fun kv => if kv.1 == id then (kv.1, f kv.2) else kv)

/-- A fresh id beyond every id in the store. -/
def nextId (store : List (Nat × Node0)) : Nat :=
  store.foldr (fun kv m => Nat.max kv.1 m) 0 + 1

/-- Record a memoized evaluation result on a node. -/
def setEvaluated (st : St0) (id : Nat) (v : Val0) : St0 :=
  ⟨updateN st.store id (fun nd => ⟨nd.kind, nd.parent, some v, nd.expanded, nd.ref, nd.dep⟩),
   st.calls⟩

/-- Record a list node's expanded form. -/
def setExpanded (st : St0) (id : Nat) (v : Val0) : St0 :=
  ⟨updateN st.store id (fun nd => ⟨nd.kind, nd.parent, nd.evaluated, some v, nd.ref, nd.dep⟩),
   st.calls⟩

/-- Cache a symbol's resolved reference. -/
def setRef (st : St0) (id : Nat) (refId : Nat) : St0 :=
  ⟨updateN st.store id (fun nd => ⟨nd.kind, nd.parent, nd.evaluated, nd.expanded, some refId, nd.dep⟩),
   st.calls⟩

/-- ref.dep = (ref.dep || new Set()).add(sym). -/
def addDep (st : St0) (refId : Nat) (symId : Nat) : St0 :=
  ⟨updateN st.store refId (fun nd =>
     ⟨nd.kind, nd.parent, nd.evaluated, nd.expanded, nd.ref,
      if symId ∈ nd.dep then nd.dep else nd.dep ++ [symId]⟩),
   st.calls⟩

/-- Append a fresh node to the store. -/
def addNode (st : St0) (id : Nat) (k : ExpKind0) : St0 :=
  ⟨st.store ++ [(id, node0 k none)], st.calls⟩

/-- The head character class of canOmitQuote's regex (the i flag makes
isAlpha cover both cases). -/
def omitHeadChar (c : Char) : Bool :=
  c.isAlpha || c ∈ ['_', '+', '-', '*', '/', '=', '?', '|', '&', '<', '>']

/-- The tail character class: the head class plus digits. -/
def omitTailChar (c : Char) : Bool :=
  omitHeadChar c || c.isDigit

/-- canOmitQuote of part_000: the name '...' or a #?-prefixed
identifier of the head/tail classes. -/
def canOmitQuote (name : String) : Bool :=
  name == "..." ||
    (match (match name.data with
            | '#' :: rest => rest
            | l => l) with
     | [] => false
     | h :: t => omitHeadChar h && t.all omitTailChar)

/-- Space-joined rendering. -/
def joinSp : List String → String
  | [] => ""
  | [s] => s
  | s :: rest => s ++ " " ++ joinSp rest

/-- printData of part_000 (printing a Value), with fuel.  Strings
print bare; restVectors interleave the '...' marker before their last
item; the hashMap labels are dropped (printExp has no label handling);
a union prints its GlobalScope name when its original resolves to one;
an infUnion without a name would throw in the source ('Cannot print
this InfUnion'), modelled by a placeholder the claims never reach. -/
def printVal0 : Nat → Val0 → String
  | 0, _ => ""
  | fuel + 1, v =>
      match v with
      | .nullv => "null"
      | .boolv b => if b then "true" else "false"
      | .numv n => toString n
      | .strv s => s
      | .vecv items => "[" ++ joinSp (items.map (printVal0 fuel)) ++ "]"
      | .allv => "All"
      | .voidv => "Void"
      | .restVector items =>
          let front := items.dropLast.map (printVal0 fuel)
          let lastS := match items.getLast? with
                       | some l => printVal0 fuel l
                       | none => ""
          "[" ++ joinSp front ++ (if front.isEmpty then "" else " ")
            ++ "..." ++ lastS ++ "]"
      | .hashMapv entries =>
          "\x7b" ++ joinSp (entries.map (fun kv => printVal0 fuel kv.2)) ++ "\x7d"
      | .fnv _ ps rest out _ =>
          "(=> " ++ printVal0 fuel (paramsVal ps rest) ++ " "
            ++ printVal0 fuel out ++ ")"
      | .unionv orig items =>
          (match orig with
           | some n => n
           | none => "(#| " ++ joinSp (items.map (printVal0 fuel)) ++ ")")
      | .infUnion id => (infUnionName id).getD "<infUnion>"
      | .fnTypeV ps rest out _ =>
          "(#=> " ++ printVal0 fuel (paramsVal ps rest) ++ " "
            ++ printVal0 fuel out ++ ")"

/-- printForm of part_000 on an Exp node, with fuel.  The str fields
recorded by the parser are not modelled (every node here is
constructed); a symbol prints bare when canOmitQuote accepts its name
and quoted otherwise; a hashMap node would hit printExp's throwing
default arm ('Invalid specialList and cannot print it'), modelled by a
placeholder the claims never reach. -/
def printFormF : Nat → List (Nat × Node0) → Nat → String
  | 0, _, _ => ""
  | fuel + 1, store, id =>
      match lookupN store id with
      | none => ""
      | some nd =>
          match nd.kind with
          | .value v => printVal0 (fuel + 1) v
          | .symbol name =>
              if canOmitQuote name then name else "\x60" ++ name ++ "\x60"
          | .list ids => "(" ++ joinSp (ids.map (printFormF fuel store)) ++ ")"
          | .vector ids rest =>
              if rest then
                let front := ids.dropLast.map (printFormF fuel store)
                let lastS := match ids.getLast? with
                             | some l => printFormF fuel store l
                             | none => ""
                "[" ++ joinSp front ++ (if front.isEmpty then "" else " ")
                  ++ "..." ++ lastS ++ "]"
              else
                "[" ++ joinSp (ids.map (printFormF fuel store)) ++ "]"
          | .hashMap _ => "<cannot print>"

/-- isListOf(sym, exp): a list node whose first item is the given
symbol. -/
def isListOfS (store : List (Nat × Node0)) (sym : String) (id : Nat) : Bool :=
  match lookupN store id with
  | some nd =>
      (match nd.kind with
       | .list (first :: _) =>
           (match lookupN store first with
            | some fnd =>
                (match fnd.kind with
                 | .symbol s => s == sym
                 | _ => false)
            | none => false)
       | _ => false)
  | none => false

/-- The parent link of a node. -/
def parentOf (store : List (Nat × Node0)) (id : Nat) : Option Nat :=
  match lookupN store id with
  | some nd => nd.parent
  | none => none

/-- resolveSymbol's parent walk: climb the parent chain, and at each
(let ...) list look the name up in its hashMap of bindings (a non-
hashMap second element throws); absence continues the climb, running
out of parents yields no reference. -/
def walkParentF : Nat → List (Nat × Node0) → Option Nat → String →
    Except String (Option Nat)
  | 0, _, _, _ => .error "fuel"
  | _ + 1, _, none, _ => .ok none
  | fuel + 1, store, some pid, name =>
      if isListOfS store "let" pid then
        match lookupN store pid with
        | some nd =>
            (match nd.kind with
             | .list (_ :: vid :: _) =>
                 (match lookupN store vid with
                  | some vnd =>
                      (match vnd.kind with
                       | .hashMap entries =>
                           (match entries.lookup name with
                            | some refId => .ok (some refId)
                            | none => walkParentF fuel store (parentOf store pid) name)
                       | _ => .error "2nd parameter of let should be HashMap")
                  | none => .error "TypeError")
             | _ => .error "TypeError"
             )
        | none => .error "TypeError"
      else
        walkParentF fuel store (parentOf store pid) name

/-- resolveSymbol of part_000: return the cached ref if present, else
walk the parent chain for a let binding of the symbol's name, cache it
on the symbol, record the dependency on the referent, and fail with
'Symbol X is not defined' when the walk finds nothing. -/
def resolveSymbolF : Nat → St0 → Nat → Except String (Nat × St0)
  | 0, _, _ => .error "fuel"
  | fuel + 1, st, symId =>
      match lookupN st.store symId with
      | some nd =>
          (match nd.kind with
           | .symbol name =>
               (match nd.ref with
                | some r => .ok (r, st)
                | none =>
                    do
                      let found ← walkParentF (fuel + 1) st.store nd.parent name
                      match found with
                      | some refId =>
                          .ok (refId, addDep (setRef st symId refId) refId symId)
                      | none =>
                          .error ("Symbol " ++ printFormF (fuel + 1) st.store symId
                            ++ " is not defined"))
           | _ => .error "TypeError")
      | none => .error "TypeError"

/-- The host fn bodies by tag.  Tag 0 is the side-effecting
host-provided primitive the memoization claims quantify over: it bumps
the state's call counter and returns the number 7.  Anything else is
unmodelled. -/
def runBodyF (st : St0) (body : Nat) (args : List (Sum Nat Val0)) :
    Except String (Sum Nat Val0 × St0) :=
  match body, args with
  | 0, _ => .ok (.inr (.numv 7), ⟨st.store, st.calls + 1⟩)
  | _ + 1, _ => .error "unknown host function"

mutual

/-- evalWithTrace of part_000, with fuel.  In source order: a node
already present in the visitation trace fails fatally with a
circular-reference error citing the printed form of the last node in
the trace; the trace is then extended; a truthy memoized result is
returned immediately; otherwise the node is computed. -/
def evalWithTraceF : Nat → St0 → Nat → List Nat → Except String (Val0 × St0)
  | 0, _, _, _ => .error "fuel"
  | fuel + 1, st, id, trace =>
      if id ∈ trace then
        .error ("Circular reference "
          ++ printFormF (fuel + 1) st.store ((trace.getLast?).getD id))
      else
        match lookupN st.store id with
        | none => .error "TypeError"
        | some nd =>
            let tr := trace ++ [id]
            match nd.evaluated with
            | some v =>
                if truthy0 v then .ok (v, st) else evalNodeF fuel st id tr nd
            | none => evalNodeF fuel st id tr nd
termination_by structural fuel st id trace => fuel

/-- The per-kind switch of evalWithTrace.  A value node is its value.
A symbol resolves and evaluates its referent (through _eval).  A list
applies: its head must evaluate to a fn; the arguments are wrapped in
a fresh (setParent: false) special vector, assigned against the fn's
parameter shape, evaluated respecting lazyEval, and the body's
expanded result is recorded on the node — only in exp.expanded, never
in exp.evaluated — and returned (a non-value expansion would be
evaluated further).  Vectors and hashMaps evaluate their children
through _eval. -/
def evalNodeF : Nat → St0 → Nat → List Nat → Node0 → Except String (Val0 × St0)
  | 0, _, _, _, _ => .error "fuel"
  | fuel + 1, st, id, tr, nd =>
      match nd.kind with
      | .value v => .ok (v, st)
      | .symbol _ =>
          do
            let (refId, st1) ← resolveSymbolF (fuel + 1) st id
            evalChildF fuel st1 refId tr
      | .list ids =>
          (match ids with
           | [] => .error "TypeError"
           | first :: rest =>
               do
                 let (fn, st1) ← evalChildF fuel st first tr
                 match fn with
                 | .fnv body params paramsRest _ lazy =>
                     do
                       let pid := nextId st1.store
                       let st2 := addNode st1 pid (.vector rest false)
                       let (aid, st3) ←
                         assignExpF fuel st2 (paramsVal params paramsRest) pid
                       match lookupN st3.store aid with
                       | some and2 =>
                           (match and2.kind with
                            | .vector pids _ =>
                                do
                                  let (args, st4) ← evalParamsF fuel st3 pids lazy tr
                                  let (expanded, st5) ← runBodyF st4 body args
                                  match expanded with
                                  | .inr v => .ok (v, setExpanded st5 id v)
                                  | .inl e => evalChildF fuel (setExpanded st5 id (.voidv)) e tr
                            | _ => .error "why??????????")
                       | none => .error "TypeError"
                 | _ => .error "First element is not a function")
      | .vector ids rest =>
          do
            let (vs, st1) ← evalSeqF fuel st ids tr
            .ok (if rest then Val0.restVector vs else Val0.vecv vs, st1)
      | .hashMap entries =>
          do
            let (vs, st1) ← evalMapF fuel st entries tr
            .ok (.hashMapv vs, st1)
termination_by structural fuel st id tr nd => fuel

/-- The local _eval: evaluate with the extended trace, and memoize the
result onto the child when it is a list, vector or hashMap node. -/
def evalChildF : Nat → St0 → Nat → List Nat → Except String (Val0 × St0)
  | 0, _, _, _ => .error "fuel"
  | fuel + 1, st, e, tr =>
      do
        let (v, st1) ← evalWithTraceF fuel st e tr
        match lookupN st1.store e with
        | some nd =>
            (match nd.kind with
             | .list _ => .ok (v, setEvaluated st1 e v)
             | .vector _ _ => .ok (v, setEvaluated st1 e v)
             | .hashMap _ => .ok (v, setEvaluated st1 e v)
             | _ => .ok (v, st1))
        | none => .ok (v, st1)
termination_by structural fuel st e tr => fuel

/-- Sequential _eval over children. -/
def evalSeqF : Nat → St0 → List Nat → List Nat → Except String (List Val0 × St0)
  | 0, _, _, _ => .error "fuel"
  | _ + 1, st, [], _ => .ok ([], st)
  | fuel + 1, st, e :: es, tr =>
      do
        let (v, st1) ← evalChildF fuel st e tr
        let (vs, st2) ← evalSeqF fuel st1 es tr
        .ok (v :: vs, st2)
termination_by structural fuel st es tr => fuel

/-- Sequential _eval over hashMap entries. -/
def evalMapF : Nat → St0 → List (String × Nat) → List Nat →
    Except String (List (String × Val0) × St0)
  | 0, _, _, _ => .error "fuel"
  | _ + 1, st, [], _ => .ok ([], st)
  | fuel + 1, st, kv :: kvs, tr =>
      do
        let (v, st1) ← evalChildF fuel st kv.2 tr
        let (vs, st2) ← evalMapF fuel st1 kvs tr
        .ok ((kv.1, v) :: vs, st2)
termination_by structural fuel st kvs tr => fuel

/-- The lazyEval-aware parameter pass: a lazy position keeps the exp
node, an eager one evaluates it through _eval. -/
def evalParamsF : Nat → St0 → List Nat → List Bool → List Nat →
    Except String (List (Sum Nat Val0) × St0)
  | 0, _, _, _, _ => .error "fuel"
  | _ + 1, st, [], _, _ => .ok ([], st)
  | fuel + 1, st, p :: ps, lazy, tr =>
      if lazy.headD false then
        do
          let (rest, st1) ← evalParamsF fuel st ps lazy.tail tr
          .ok (.inl p :: rest, st1)
      else
        do
          let (v, st1) ← evalChildF fuel st p tr
          let (rest, st2) ← evalParamsF fuel st1 ps lazy.tail tr
          .ok (.inr v :: rest, st2)
termination_by structural fuel st ps lazy tr => fuel

/-- inferType of part_000 on an Exp node, with fuel: a value node's
value; a symbol's referent's type; for a list, the evaluation of its
head when it is a (=> ...) form and the head's own type otherwise (an
empty list crashes the JS); a vector maps inferType over its items (a
plain array regardless of the rest flag, as in the source); a hashMap
maps it over its values. -/
def inferTypeF : Nat → St0 → Nat → Except String (Val0 × St0)
  | 0, _, _ => .error "fuel"
  | fuel + 1, st, id =>
      match lookupN st.store id with
      | none => .error "TypeError"
      | some nd =>
          match nd.kind with
          | .value v => .ok (v, st)
          | .symbol _ =>
              do
                let (refId, st1) ← resolveSymbolF (fuel + 1) st id
                inferTypeF fuel st1 refId
          | .list ids =>
              (match ids with
               | [] => .error "TypeError"
               | first :: _ =>
                   if isListOfS st.store "=>" id then
                     evalWithTraceF fuel st first []
                   else inferTypeF fuel st first)
          | .vector ids _ =>
              do
                let (vs, st1) ← inferSeqF fuel st ids
                .ok (.vecv vs, st1)
          | .hashMap entries =>
              do
                let (vs, st1) ← inferMapF fuel st entries
                .ok (.hashMapv vs, st1)
termination_by structural fuel st id => fuel

/-- inferType mapped over a list of nodes. -/
def inferSeqF : Nat → St0 → List Nat → Except String (List Val0 × St0)
  | 0, _, _ => .error "fuel"
  | _ + 1, st, [] => .ok ([], st)
  | fuel + 1, st, e :: es =>
      do
        let (v, st1) ← inferTypeF fuel st e
        let (vs, st2) ← inferSeqF fuel st1 es
        .ok (v :: vs, st2)
termination_by structural fuel st es => fuel

/-- inferType mapped over hashMap entries. -/
def inferMapF : Nat → St0 → List (String × Nat) →
    Except String (List (String × Val0) × St0)
  | 0, _, _ => .error "fuel"
  | _ + 1, st, [] => .ok ([], st)
  | fuel + 1, st, kv :: kvs =>
      do
        let (v, st1) ← inferTypeF fuel st kv.2
        let (vs, st2) ← inferMapF fuel st1 kvs
        .ok ((kv.1, v) :: vs, st2)
termination_by structural fuel st kvs => fuel

/-- assignExp of part_000, with fuel: the source's type is checked
against the inferred type of the source exp; primitives require
equality; an array target requires a vector source it contains and
takes its prefix into a fresh vector node; all/void/union/infUnion
targets require containment and pass the source through; a restVector
target splits a contained non-rest vector source into fixed and rest
parts (two fresh nodes); anything else throws 'Cannot assign!!!'. -/
def assignExpF : Nat → St0 → Val0 → Nat → Except String (Nat × St0)
  | 0, _, _, _ => .error "fuel"
  | fuel + 1, st, target, source =>
      do
        let (sourceType, st1) ← inferTypeF fuel st source
        let msg := "Cannot assign '" ++ printFormF fuel st1.store source
          ++ "' to '" ++ printVal0 fuel target ++ "'"
        if isValuePrim0 target then
          if isEqualValueF fuel target sourceType then .ok (source, st1)
          else .error msg
        else
          match target with
          | .vecv ts =>
              (match lookupN st1.store source with
               | some snd =>
                   (match snd.kind with
                    | .vector sids _ =>
                        if containsValueF fuel (.vecv ts) sourceType then
                          let pid := nextId st1.store
                          .ok (pid, addNode st1 pid (.vector (sids.take ts.length) false))
                        else .error msg
                    | _ => .error msg)
               | none => .error msg)
          | .allv =>
              if containsValueF fuel target sourceType then .ok (source, st1)
              else .error msg
          | .voidv =>
              if containsValueF fuel target sourceType then .ok (source, st1)
              else .error msg
          | .unionv _ _ =>
              if containsValueF fuel target sourceType then .ok (source, st1)
              else .error msg
          | .infUnion _ =>
              if containsValueF fuel target sourceType then .ok (source, st1)
              else .error msg
          | .restVector ts =>
              (match lookupN st1.store source with
               | some snd =>
                   (match snd.kind with
                    | .vector sids srest =>
                        if srest then .error msg
                        else if containsValueF fuel target sourceType then
                          let restPos := ts.length - 1
                          let rid := nextId st1.store
                          let st2 := addNode st1 rid (.vector (sids.drop restPos) false)
                          let oid := nextId st2.store
                          .ok (oid, addNode st2 oid (.vector (sids.take restPos ++ [rid]) false))
                        else .error msg
                    | _ => .error msg)
               | none => .error msg)
          | _ => .error "Cannot assign!!!"

termination_by structural fuel st target source => fuel
end

/-- The cyclic binding scenario of the cycle-detection claim: a (let
\x7ba b, b a\x7d ...) graph.  Node 3 is the let list, node 2 its binding
hashMap mapping a to the symbol node 4 (reading b) and b to the symbol
node 5 (reading a), and node 6 is a use of a under the list. -/
def st6nodes : St0 := ⟨[
  (1, node0 (.symbol "let") (some 3)),
  (2, node0 (.hashMap [("a", 4), ("b", 5)]) (some 3)),
  (3, node0 (.list [1, 2, 6]) none),
  (4, node0 (.symbol "b") (some 2)),
  (5, node0 (.symbol "a") (some 2)),
  (6, node0 (.symbol "a") (some 3))], 0⟩

/-- The double-evaluation scenario of the memoization claim: node 2 is
a call list (f) whose head node 1 holds a host fn with no parameters
whose body is the side-effecting primitive (tag 0). -/
def st5nodes : St0 := ⟨[
  (1, node0 (.value (.fnv 0 [] false .allv [])) (some 2)),
  (2, node0 (.list [1]) none)], 0⟩

/-- C6: evaluation detects cycles through its visitation trace —
whenever the node under evaluation is already in the (nonempty) trace,
evalWithTrace fails fatally with a circular-reference error citing the
printed form of the last node of the trace; and in the concrete a/b
cycle (a bound to a node referencing b, b to a node referencing a),
evaluating a use of a fails with 'Circular reference a', naming one of
the two symbols. -/
theorem claim_C6_circular_reference :
    (∀ (fuel : Nat) (st : St0) (id : Nat) (tr : List Nat) (lastId : Nat),
        id ∈ tr ++ [lastId] →
        evalWithTraceF (fuel + 1) st id (tr ++ [lastId])
          = .error ("Circular reference " ++ printFormF (fuel + 1) st.store lastId))
      ∧ evalWithTraceF 30 st6nodes 6 [] = .error "Circular reference a" := by
  constructor
  · intro fuel st id tr lastId h
    simp [evalWithTraceF, h, List.getLast?_concat]
  · rfl

/-- C6 witness: the trace hit at a concrete store and trace. -/
theorem claim_C6_circular_reference_witness :
    evalWithTraceF 3 st6nodes 4 ([6] ++ [4])
      = .error ("Circular reference " ++ printFormF 3 st6nodes.store 4) :=
  claim_C6_circular_reference.1 2 st6nodes 4 [6] 4 (by simp)

/-- C5: the memo check itself works — a node carrying a truthy
memoized result is returned immediately with the state (and hence the
primitive call count) unchanged — but the claimed scenario fails: the
list case records the body's result only in exp.expanded and never in
exp.evaluated (experiment 07 assigned exp.evaluated here), so
evaluating the same call node twice runs the side-effecting host
primitive twice, not once: the call counter reaches 2. -/
theorem claim_C5_memoization_gap :
    (∀ (fuel : Nat) (st : St0) (id : Nat) (trace : List Nat) (nd : Node0) (v : Val0),
        id ∉ trace → lookupN st.store id = some nd →
        nd.evaluated = some v → truthy0 v = true →
        evalWithTraceF (fuel + 1) st id trace = .ok (v, st))
      ∧ (∃ st1 st2,
          evalWithTraceF 30 st5nodes 2 [] = .ok (.numv 7, st1) ∧ st1.calls = 1
            ∧ evalWithTraceF 30 st1 2 [] = .ok (.numv 7, st2) ∧ st2.calls = 2) := by
  constructor
  · intro fuel st id trace nd v hnot hlook heval htru
    simp only [evalWithTraceF, if_neg hnot]
    rw [hlook]
    simp [heval, htru]
  · exact ⟨_, _, rfl, rfl, rfl, rfl⟩

/-- C5 witness: a memoized list node returns its cached value with the
state untouched. -/
theorem claim_C5_memoization_gap_witness :
    evalWithTraceF 1 ⟨[(9, ⟨.list [], none, some (.numv 7), none, none, []⟩)], 0⟩ 9 []
      = .ok (.numv 7, ⟨[(9, ⟨.list [], none, some (.numv 7), none, none, []⟩)], 0⟩) :=
  claim_C5_memoization_gap.1 0 ⟨[(9, ⟨.list [], none, some (.numv 7), none, none, []⟩)], 0⟩
    9 [] ⟨.list [], none, some (.numv 7), none, none, []⟩ (.numv 7)
    (by simp) rfl rfl rfl

end P0
